import Mathlib

/-!
Verification of the CNTK `Indexer` (Source/Readers/ReaderLib/Indexer.cpp):
a single-pass, buffer-bounded scanner that indexes a line-oriented text
corpus into sequence descriptors.

The embedding models the file as a list of byte values (`Nat` in 0..255),
the scanner state (`IState`) mirrors the cursor fields of the `Indexer`
class, and every loop of the source is translated into a fuel-based
structural recursion so that all definitions are executable and decidable.
A buffer-free reference scanner is defined alongside and proved equivalent
in order to settle buffer-capacity-independence properties.
-/

namespace Indexer

/-- A byte of the input file (value in 0..255 in actual runs; the embedding
is total over `Nat`). -/
abbrev Byte := Nat

/-- A textual key (the bytes of a `std::string`). -/
abbrev Key := List Byte

/-- C `isdigit` on a byte: ASCII `'0'`..`'9'`. -/
def isDigitB (c : Byte) : Bool := 48 ≤ c && c ≤ 57

/-- C `isspace` on a byte (C locale): space, `\t`, `\n`, `\v`, `\f`, `\r`. -/
def isSpaceB (c : Byte) : Bool := c == 32 || (9 ≤ c && c ≤ 13)

/-- 2^64; `size_t` arithmetic in the source wraps modulo this. -/
def U64 : Nat := 18446744073709551616

/-- One step of the source's `id = id * 10 + (c - '0')` accumulation,
in `size_t` (i.e. modulo 2^64) arithmetic. -/
def digitStep (id : Nat) (c : Byte) : Nat := (id * 10 + (c - 48)) % U64

/-- `std::to_string` for an unsigned integer: its decimal digit bytes. -/
def natToKey (n : Nat) : Key := (Nat.toDigits 10 n).map Char.toNat

/-- Index of the first `'\n'` (byte 10) in a list, the search primitive
underlying the source's `memchr(_, ROW_DELIMITER, _)` calls. -/
def findNL : List Byte → Option Nat
  | [] => none
  | c :: cs => if c = 10 then some 0 else (findNL cs).map (· + 1)

/-- `memchr(m_pos, ROW_DELIMITER, m_bufferEnd - m_pos)` on the buffer
window starting at `pos`: the returned index is relative to the whole
buffer (the source's pointer is relative to `m_bufferStart`). -/
def memchrNL (buf : List Byte) (pos : Nat) : Option Nat :=
  (findNL (buf.drop pos)).map (pos + ·)

/-- Registry lookup, modelling `StringToIdMap::TryGet(key, id)` of the
external registry: the id of an interned key is its insertion index.
The registry collaborator is external to the sources (spec section 6:
`tryGet(key) -> (found, id)`, ids assigned in insertion order). -/
def registryTryGet (reg : List Key) (k : Key) : Option Nat :=
  reg.findIdx? (fun x => x = k)

/-- Get-or-create interning: `TryGet`, and on a miss `AddValue`, which
assigns the next id (spec section 6: `addValue(key)` assigns next id). -/
def internKey (reg : List Key) (k : Key) : List Key × Nat :=
  match registryTryGet reg k with
  | some i => (reg, i)
  | none => (reg ++ [k], reg.length)

/-- `SequenceDescriptor` of the source: start offset, byte size, sample
count and the key (`m_key.m_sequence`, `m_key.m_sample`). -/
structure SequenceDescriptor where
  fileOffsetBytes : Nat
  byteSize : Nat
  numberOfSamples : Nat
  keySequence : Nat
  keySample : Nat
deriving Repr, DecidableEq

/-- The scan-cursor fields of the `Indexer` class.  `buffer` holds the
bytes between `m_bufferStart` and `m_bufferEnd`, `posIdx` is
`m_pos - m_bufferStart`, `fileOffsetStart` is the absolute offset of
`m_bufferStart`, and `fileOffsetEnd` the total number of bytes read. -/
structure IState where
  bufferSize : Nat
  fileOffsetStart : Nat
  fileOffsetEnd : Nat
  buffer : List Byte
  posIdx : Nat
  done : Bool
deriving Repr, DecidableEq

/-- The state established by the constructor (empty buffer, offsets 0). -/
def initialState (bufferSize : Nat) : IState :=
  { bufferSize := bufferSize, fileOffsetStart := 0, fileOffsetEnd := 0,
    buffer := [], posIdx := 0, done := false }

/-- Modelled from the spec: `GetFileOffset` lives in `Indexer.h`, which is
not among the sources; spec section 3 fixes the current absolute read
offset as `bufferStartOffset + (position - bufferStart)`. -/
def GetFileOffset (s : IState) : Nat := s.fileOffsetStart + s.posIdx

/-- Number of bytes `fread` returns for the next refill: the file source
reads sequentially, so it delivers `min bufferSize remaining` and signals
end-of-file by a zero-byte read (spec section 6). -/
def freadCount (file : List Byte) (s : IState) : Nat :=
  min s.bufferSize (file.length - s.fileOffsetEnd)

/-- `Indexer::RefillBuffer` (the non-erroring path): on a zero-byte read
mark the stream exhausted, otherwise advance the tracked offsets and load
the read bytes. -/
def RefillBuffer (file : List Byte) (s : IState) : IState :=
  if s.done then s
  else if freadCount file s = 0 then { s with done := true }
  else
    { s with
      fileOffsetStart := s.fileOffsetEnd,
      fileOffsetEnd := s.fileOffsetEnd + freadCount file s,
      buffer := (file.drop s.fileOffsetEnd).take (freadCount file s),
      posIdx := 0 }

/-- Fatal scan failures raised through `RuntimeError` in the source, plus
`fuelExhausted`, the out-of-fuel marker of the embedding (proved
unreachable for the fuel amounts used by `Build`). -/
inductive ScanError where
  | emptyInput
  | noSequenceId (offset : Nat)
  | readFailure
  | fuelExhausted
deriving Repr, DecidableEq

/-- Outcome of a single `fread` call: either an I/O failure (the source
checks for `(size_t)-1`) or a byte count, where 0 means end-of-file. -/
inductive FreadOutcome where
  | ioError
  | bytes (n : Nat)
deriving Repr, DecidableEq

/-- `Indexer::RefillBuffer` with the read outcome made explicit: an I/O
failure aborts via `RuntimeError("Could not read from the input file.")`,
a zero-byte read marks exhaustion, otherwise the buffer is reloaded. -/
def RefillBufferIO (file : List Byte) (s : IState) (r : FreadOutcome) :
    Except ScanError IState :=
  if s.done then .ok s
  else
    match r with
    | .ioError => .error .readFailure
    | .bytes n =>
      if n = 0 then .ok { s with done := true }
      else
        .ok { s with
              fileOffsetStart := s.fileOffsetEnd,
              fileOffsetEnd := s.fileOffsetEnd + n,
              buffer := (file.drop s.fileOffsetEnd).take n,
              posIdx := 0 }

/-- The non-erroring refill is the explicit-outcome refill applied to the
byte count the file source actually returns. -/
theorem RefillBufferIO_bytes (file : List Byte) (s : IState) :
    RefillBufferIO file s (.bytes (freadCount file s)) = .ok (RefillBuffer file s) := by
  unfold RefillBufferIO RefillBuffer
  by_cases h : s.done <;> simp [h]
  by_cases h0 : freadCount file s = 0 <;> simp [h0]

/-- `Indexer::SkipLine`: search the buffered window for the row delimiter;
on a hit step just past it (refilling if that lands on the buffer end) and
return; on a miss refill and keep searching until exhausted. -/
def SkipLineF (file : List Byte) : Nat → IState → Option IState
  | 0, _ => none
  | fuel + 1, s =>
    if s.done then some s
    else
      match memchrNL s.buffer s.posIdx with
      | some j =>
        let s1 : IState := { s with posIdx := j + 1 }
        if s1.posIdx = s1.buffer.length then some (RefillBuffer file s1) else some s1
      | none => SkipLineF file fuel (RefillBuffer file s)

/-- Result of `Indexer::TryGetSequenceId`: final cursor state, the (shared)
string registry after any interning, the returned `found` flag and the
out-parameter `id`. -/
structure TryGetRes where
  state : IState
  registry : List Key
  found : Bool
  id : Nat
deriving Repr, DecidableEq

/-- Loop body of `Indexer::TryGetSequenceId`, with the accumulating locals
(`id`, `key`, `found`) made explicit.  Numeric mode folds digits into `id`
(in `size_t` arithmetic) and stops at the first non-digit without
consuming it; textual mode accumulates non-whitespace bytes into `key`
and, at the first whitespace, interns the accumulated key (`TryGet`, then
`AddValue` on a miss).  When the window is exhausted the buffer is
refilled; reaching end-of-file returns `found = false`. -/
def TryGetSeqIdF (file : List Byte) (numeric : Bool) :
    Nat → IState → List Key → Nat → Key → Bool → Option TryGetRes
  | 0, _, _, _, _, _ => none
  | fuel + 1, s, reg, id, key, found =>
    if s.done then some { state := s, registry := reg, found := false, id := id }
    else
      if s.posIdx < s.buffer.length then
        if numeric then
          if isDigitB (s.buffer.getD s.posIdx 0) then
            TryGetSeqIdF file numeric fuel { s with posIdx := s.posIdx + 1 } reg
              (digitStep id (s.buffer.getD s.posIdx 0)) key true
          else some { state := s, registry := reg, found := found, id := id }
        else
          if isSpaceB (s.buffer.getD s.posIdx 0) then
            if found then
              match registryTryGet reg key with
              | some i => some { state := s, registry := reg, found := true, id := i }
              | none =>
                some { state := s, registry := reg ++ [key], found := true, id := reg.length }
            else some { state := s, registry := reg, found := false, id := id }
          else
            TryGetSeqIdF file numeric fuel { s with posIdx := s.posIdx + 1 } reg id
              (key ++ [s.buffer.getD s.posIdx 0]) true
      else TryGetSeqIdF file numeric fuel (RefillBuffer file s) reg id key found

/-- `Indexer::TryGetSequenceId` at its entry point (`found = false`,
`id = 0`, empty `key`). -/
def TryGetSequenceId (file : List Byte) (numeric : Bool) (fuel : Nat) (s : IState)
    (reg : List Key) : Option TryGetRes :=
  TryGetSeqIdF file numeric fuel s reg 0 [] false

/-- `Indexer::AddSequenceIfIncluded`.  The source's body reads an
identifier `sequenceKey` whose declaration is not among the sources (the
function's own parameter is `sequenceId`); following the spec's design
note ("an implementer must pick one consistent binding: the routine's own
discovered key") it is resolved to the parameter.  `stringRegistry[key]`
(string to id) is modelled from spec section 6 as get-or-create interning,
and `GetStringRegistry()[sequenceKey]` in the textual branch as the
reverse lookup `lookup(id) -> string`.  Returns the updated registry and
the descriptor handed to `Index::AddSequence` (or `none` if the corpus
filter excluded the key). -/
def AddSequenceIfIncluded (numeric : Bool) (isIncluded : Key → Bool)
    (reg : List Key) (sequenceId : Nat) (sd : SequenceDescriptor) :
    List Key × Option SequenceDescriptor :=
  if numeric then
    let key := natToKey sequenceId
    if isIncluded key then
      let r := internKey reg key
      (r.1, some { sd with keySequence := r.2, keySample := 0 })
    else (reg, none)
  else
    let key := reg.getD sequenceId []
    if isIncluded key then
      let r := internKey reg key
      (r.1, some { sd with keySequence := r.2, keySample := 0 })
    else (reg, none)

/-- The emission log of a scan: every descriptor handed to
`AddSequenceIfIncluded` (with the key id it was handed with), and every
descriptor the sink's `AddSequence` actually received. -/
structure ScanAcc where
  computed : List (Nat × SequenceDescriptor)
  added : List SequenceDescriptor
deriving Repr, DecidableEq

/-- One emission: record the computed descriptor and run
`AddSequenceIfIncluded`. -/
def emitSeq (numeric : Bool) (isIncluded : Key → Bool) (reg : List Key)
    (acc : ScanAcc) (sequenceId : Nat) (sd : SequenceDescriptor) :
    List Key × ScanAcc :=
  let r := AddSequenceIfIncluded numeric isIncluded reg sequenceId sd
  (r.1, { computed := acc.computed ++ [(sequenceId, sd)],
          added := acc.added ++ r.2.toList })

/-- `Indexer::BuildFromLines`: every line is a sequence of one sample;
`offset` is the pending sequence start, `lines` the running line counter
used as the sequence key.  After exhaustion a trailing fragment not
terminated by a delimiter is still emitted. -/
def BuildFromLinesF (file : List Byte) (numeric : Bool) (isIncluded : Key → Bool) :
    Nat → IState → List Key → Nat → Nat → ScanAcc → Option (IState × List Key × ScanAcc)
  | 0, _, _, _, _, _ => none
  | fuel + 1, s, reg, lines, offset, acc =>
    if s.done then
      if offset < s.fileOffsetEnd then
        let sd : SequenceDescriptor :=
          { fileOffsetBytes := offset, byteSize := s.fileOffsetEnd - offset,
            numberOfSamples := 1, keySequence := 0, keySample := 0 }
        let r := emitSeq numeric isIncluded reg acc lines sd
        some (s, r.1, r.2)
      else some (s, reg, acc)
    else
      match memchrNL s.buffer s.posIdx with
      | some j =>
        let offset1 := s.fileOffsetStart + j + 1
        let sd : SequenceDescriptor :=
          { fileOffsetBytes := offset, byteSize := offset1 - offset,
            numberOfSamples := 1, keySequence := 0, keySample := 0 }
        let r := emitSeq numeric isIncluded reg acc lines sd
        BuildFromLinesF file numeric isIncluded fuel { s with posIdx := j + 1 } r.1
          (lines + 1) offset1 r.2
      | none => BuildFromLinesF file numeric isIncluded fuel (RefillBuffer file s) reg lines offset acc

/-- The `while (!m_done)` loop of `Indexer::Build` in key-grouped mode,
plus the final emission after it: skip the rest of the current line, note
the new line's start offset, bump the sample count, and try to read the
next key; a differing key closes the current descriptor at the new line's
start.  On exhaustion the final descriptor is closed at end-of-file. -/
def BuildKeyLoopF (file : List Byte) (numeric : Bool) (isIncluded : Key → Bool) :
    Nat → IState → List Key → Nat → SequenceDescriptor → ScanAcc →
    Option (IState × List Key × ScanAcc)
  | 0, _, _, _, _, _ => none
  | fuel + 1, s, reg, currentKey, sd, acc =>
    if s.done then
      let sdF := { sd with byteSize := s.fileOffsetEnd - sd.fileOffsetBytes }
      let r := emitSeq numeric isIncluded reg acc currentKey sdF
      some (s, r.1, r.2)
    else
      match SkipLineF file (file.length + 2) s with
      | none => none
      | some s1 =>
        let offset := GetFileOffset s1
        let sd1 := { sd with numberOfSamples := sd.numberOfSamples + 1 }
        if s1.done then BuildKeyLoopF file numeric isIncluded fuel s1 reg currentKey sd1 acc
        else
          match TryGetSequenceId file numeric (2 * file.length + 4) s1 reg with
          | none => none
          | some r =>
            if r.found = true ∧ r.id ≠ currentKey then
              let sdC := { sd1 with byteSize := offset - sd1.fileOffsetBytes }
              let e := emitSeq numeric isIncluded r.registry acc currentKey sdC
              let sdN : SequenceDescriptor :=
                { fileOffsetBytes := offset, byteSize := 0, numberOfSamples := 0,
                  keySequence := 0, keySample := 0 }
              BuildKeyLoopF file numeric isIncluded fuel r.state e.1 r.id sdN e.2
            else BuildKeyLoopF file numeric isIncluded fuel r.state r.registry currentKey sd1 acc

/-- Everything `Indexer::Build` produced: the final cursor state, the
final registry, the emission log, and the sink's `Reserve` argument. -/
structure BuildResult where
  state : IState
  registry : List Key
  computed : List (Nat × SequenceDescriptor)
  added : List SequenceDescriptor
  reserved : Option Nat
deriving Repr, DecidableEq

/-- The tail of `Indexer::Build` after the BOM check (line 122 onwards):
dispatch on the first byte, then scan in line-delimited or key-grouped
mode, failing fatally when the very first key cannot be parsed. -/
def BuildRest (file : List Byte) (hasSequenceIds numeric : Bool) (pre : Byte)
    (isIncluded : Key → Bool) (reg0 : List Key) (s1 : IState) :
    Except ScanError BuildResult :=
  if hasSequenceIds = false ∨ s1.buffer.getD 0 0 = pre then
    match BuildFromLinesF file numeric isIncluded (2 * file.length + 4) s1 reg0 0
        (GetFileOffset s1) { computed := [], added := [] } with
    | none => .error .fuelExhausted
    | some (sF, regF, accF) =>
      .ok { state := sF, registry := regF, computed := accF.computed,
            added := accF.added, reserved := some file.length }
  else
    match TryGetSequenceId file numeric (2 * file.length + 4) s1 reg0 with
    | none => .error .fuelExhausted
    | some r =>
      if r.found = false then .error (.noSequenceId (GetFileOffset s1))
      else
        match BuildKeyLoopF file numeric isIncluded (2 * file.length + 4) r.state
            r.registry r.id
            { fileOffsetBytes := GetFileOffset s1, byteSize := 0, numberOfSamples := 0,
              keySequence := 0, keySample := 0 }
            { computed := [], added := [] } with
        | none => .error .fuelExhausted
        | some (sF, regF, accF) =>
          .ok { state := sF, registry := regF, computed := accF.computed,
                added := accF.added, reserved := some file.length }

/-- `Indexer::Build`.  `indexNonEmpty` is the sink's `IsEmpty()` answer
negated (a non-empty sink short-circuits the whole scan); `Reserve` is
modelled by recording `filesize` (the file's length, spec section 6
`sizeHint`).  The first refill decides emptiness; then, if the first
buffer holds more than three bytes starting with the UTF-8 BOM, the BOM
is skipped; then either line-delimited or key-grouped scanning runs,
the latter failing fatally if no first key can be parsed. -/
def Build (file : List Byte) (hasSequenceIds numeric : Bool) (pre : Byte)
    (bufferSize : Nat) (isIncluded : Key → Bool) (reg0 : List Key)
    (indexNonEmpty : Bool) : Except ScanError BuildResult :=
  if indexNonEmpty then
    .ok { state := initialState bufferSize, registry := reg0, computed := [],
          added := [], reserved := none }
  else
    let s0 := RefillBuffer file (initialState bufferSize)
    if s0.done then .error .emptyInput
    else
      let s1 : IState :=
        if 3 < s0.buffer.length ∧ s0.buffer.getD 0 0 = 239 ∧
            s0.buffer.getD 1 0 = 187 ∧ s0.buffer.getD 2 0 = 191 then
          { s0 with fileOffsetStart := s0.fileOffsetStart + 3, buffer := s0.buffer.drop 3 }
        else s0
      BuildRest file hasSequenceIds numeric pre isIncluded reg0 s1

/-! ### Facts about the delimiter search primitive -/

theorem findNL_some_lt {l : List Byte} {j : Nat} (h : findNL l = some j) : j < l.length := by
  induction l generalizing j with
  | nil => simp [findNL] at h
  | cons c cs ih =>
    simp only [findNL] at h
    simp only [List.length_cons]
    by_cases hc : c = 10
    · simp [hc] at h
      omega
    · simp [hc] at h
      obtain ⟨k, hk, rfl⟩ := h
      have := ih hk
      omega

theorem findNL_eq_none_iff {l : List Byte} : findNL l = none ↔ ∀ c ∈ l, c ≠ 10 := by
  induction l with
  | nil => simp [findNL]
  | cons c cs ih =>
    simp only [findNL]
    by_cases hc : c = 10 <;> simp [hc, ih]

theorem findNL_append_left {a : List Byte} {j : Nat} (b : List Byte)
    (h : findNL a = some j) : findNL (a ++ b) = some j := by
  induction a generalizing j with
  | nil => simp [findNL] at h
  | cons c cs ih =>
    simp only [findNL] at h ⊢
    by_cases hc : c = 10
    · simp [hc] at h ⊢
      omega
    · simp [hc] at h ⊢
      obtain ⟨k, hk, rfl⟩ := h
      exact ⟨k, ih hk, rfl⟩

theorem findNL_append_right {a : List Byte} (b : List Byte)
    (h : findNL a = none) : findNL (a ++ b) = (findNL b).map (a.length + ·) := by
  induction a with
  | nil =>
    simp only [List.nil_append, List.length_nil]
    cases hb : findNL b <;> simp
  | cons c cs ih =>
    rw [List.cons_append]
    simp only [findNL] at h ⊢
    by_cases hc : c = 10
    · simp [hc] at h
    · simp only [hc, if_false] at h ⊢
      have hcs : findNL cs = none := by
        cases hfind : findNL cs
        · rfl
        · rw [hfind] at h; simp at h
      rw [ih hcs]
      cases hb : findNL b
      · rfl
      · simp [Option.map_map, Function.comp]
        omega

theorem findNL_take {l : List Byte} (n : Nat) :
    findNL (l.take n) = (findNL l).bind (fun j => if j < n then some j else none) := by
  induction l generalizing n with
  | nil => simp [findNL]
  | cons c cs ih =>
    cases n with
    | zero =>
      cases h : findNL (c :: cs) <;> simp [h, findNL]
    | succ n =>
      rw [List.take_succ_cons]
      simp only [findNL]
      by_cases hc : c = 10
      · simp [hc]
      · simp only [hc, if_false, ih n]
        cases h : findNL cs with
        | none => rfl
        | some j =>
          by_cases hj : j < n <;> simp [hj, Nat.succ_lt_succ_iff]

theorem findNL_some_getD {l : List Byte} {j : Nat} (h : findNL l = some j) :
    l.getD j 0 = 10 := by
  induction l generalizing j with
  | nil => simp [findNL] at h
  | cons c cs ih =>
    simp only [findNL] at h
    by_cases hc : c = 10
    · simp [hc] at h
      simp [← h, hc]
    · simp [hc] at h
      obtain ⟨k, hk, rfl⟩ := h
      simpa using ih hk

theorem findNL_lt_ne {l : List Byte} {j : Nat} (h : findNL l = some j) :
    ∀ i, i < j → l.getD i 0 ≠ 10 := by
  induction l generalizing j with
  | nil => simp [findNL] at h
  | cons c cs ih =>
    simp only [findNL] at h
    by_cases hc : c = 10
    · simp [hc] at h
      omega
    · simp [hc] at h
      obtain ⟨k, hk, rfl⟩ := h
      intro i hi
      cases i with
      | zero => simpa using hc
      | succ i => simpa using ih hk i (by omega)

/-- A list with no delimiter byte has no delimiter hit. -/
theorem findNL_eq_none_of_all {l : List Byte} (h : ∀ c ∈ l, c ≠ 10) : findNL l = none :=
  findNL_eq_none_iff.mpr h

theorem length_takeWhile_le (p : Byte → Bool) (l : List Byte) :
    (l.takeWhile p).length ≤ l.length := by
  induction l with
  | nil => simp
  | cons c cs ih =>
    rw [List.takeWhile_cons]
    by_cases hc : p c <;> simp [hc] <;> omega

/-! ### The buffer-free reference scanner

The buffered scanner is proved equivalent to the following reference
scanner, which walks the file by absolute position with no buffer at all.
All buffer-capacity dependence is concentrated in a single start-offset
parameter. -/

/-- Reference `SkipLine`: absolute position just past the next delimiter
at or after `p`, or `none` when the rest of the file has no delimiter. -/
def refSkip (file : List Byte) (p : Nat) : Option Nat :=
  (findNL (file.drop p)).map (fun j => p + j + 1)

/-- The run of decimal digits at absolute position `a` (what numeric key
parsing consumes). -/
def numKeyRun (file : List Byte) (a : Nat) : List Byte :=
  (file.drop a).takeWhile isDigitB

/-- The run of non-whitespace bytes at absolute position `a` (what textual
key parsing consumes). -/
def textKeyRun (file : List Byte) (a : Nat) : List Byte :=
  (file.drop a).takeWhile (fun c => !isSpaceB c)

/-- Reference `TryGetSequenceId` from absolute position `p`: returns
`(found, id, new position, registry)`.  `found` demands both a non-empty
key and a terminating byte strictly before end-of-file (reaching
end-of-file mid-key returns `found = false`). -/
def refKey (file : List Byte) (numeric : Bool) (p : Nat) (reg : List Key) :
    Bool × Nat × Nat × List Key :=
  if numeric then
    (!(numKeyRun file p).isEmpty && decide (p + (numKeyRun file p).length < file.length),
      (numKeyRun file p).foldl digitStep 0, p + (numKeyRun file p).length, reg)
  else
    if !(textKeyRun file p).isEmpty && decide (p + (textKeyRun file p).length < file.length) then
      (true, (internKey reg (textKeyRun file p)).2, p + (textKeyRun file p).length,
        (internKey reg (textKeyRun file p)).1)
    else (false, 0, p + (textKeyRun file p).length, reg)

/-- The reference key parser never moves backwards. -/
theorem refKey_pos_ge (file : List Byte) (numeric : Bool) (p : Nat) (reg : List Key) :
    p ≤ (refKey file numeric p reg).2.2.1 := by
  simp only [refKey]
  split
  · simp
  · split
    · simp
    · simp

/-- Positions delivered by the reference line skip. -/
theorem refSkip_some_bounds {file : List Byte} {p q : Nat}
    (h : refSkip file p = some q) : p + 1 ≤ q ∧ q ≤ file.length ∧ p < file.length := by
  unfold refSkip at h
  cases hf : findNL (file.drop p) with
  | none => rw [hf] at h; simp at h
  | some j =>
    rw [hf] at h
    simp at h
    have h1 : j < (file.drop p).length := findNL_some_lt hf
    have h2 : (file.drop p).length = file.length - p := List.length_drop ..
    omega

/-- Reference `BuildFromLines` from absolute position `o` (which is both
the scan position and the pending sequence start in line mode). -/
def refLines (numeric : Bool) (isIncluded : Key → Bool) (file : List Byte)
    (o : Nat) (reg : List Key) (lines : Nat) (acc : ScanAcc) : List Key × ScanAcc :=
  match h : findNL (file.drop o) with
  | some j =>
    let sd : SequenceDescriptor :=
      { fileOffsetBytes := o, byteSize := j + 1, numberOfSamples := 1,
        keySequence := 0, keySample := 0 }
    let r := emitSeq numeric isIncluded reg acc lines sd
    refLines numeric isIncluded file (o + j + 1) r.1 (lines + 1) r.2
  | none =>
    if o < file.length then
      let sd : SequenceDescriptor :=
        { fileOffsetBytes := o, byteSize := file.length - o, numberOfSamples := 1,
          keySequence := 0, keySample := 0 }
      let r := emitSeq numeric isIncluded reg acc lines sd
      (r.1, r.2)
    else (reg, acc)
termination_by file.length - o
decreasing_by
  have h1 : j < (file.drop o).length := findNL_some_lt h
  have h2 : (file.drop o).length = file.length - o := List.length_drop ..
  omega

/-- Reference key-grouped loop from absolute position `p` (the scanner is
not exhausted and stands at `p` when the loop re-checks its condition). -/
def refKeyLoop (numeric : Bool) (isIncluded : Key → Bool) (file : List Byte)
    (p : Nat) (currentKey : Nat) (sd : SequenceDescriptor) (reg : List Key)
    (acc : ScanAcc) : List Key × ScanAcc :=
  match h : refSkip file p with
  | none =>
    let sd1 := { sd with numberOfSamples := sd.numberOfSamples + 1 }
    let sdF := { sd1 with byteSize := file.length - sd1.fileOffsetBytes }
    let r := emitSeq numeric isIncluded reg acc currentKey sdF
    (r.1, r.2)
  | some q =>
    let sd1 := { sd with numberOfSamples := sd.numberOfSamples + 1 }
    if q = file.length then
      let sdF := { sd1 with byteSize := file.length - sd1.fileOffsetBytes }
      let r := emitSeq numeric isIncluded reg acc currentKey sdF
      (r.1, r.2)
    else
      let k := refKey file numeric q reg
      if k.2.2.1 = file.length then
        let sdF := { sd1 with byteSize := file.length - sd1.fileOffsetBytes }
        let r := emitSeq numeric isIncluded k.2.2.2 acc currentKey sdF
        (r.1, r.2)
      else
        if k.1 = true ∧ k.2.1 ≠ currentKey then
          let sdC := { sd1 with byteSize := q - sd1.fileOffsetBytes }
          let e := emitSeq numeric isIncluded k.2.2.2 acc currentKey sdC
          let sdN : SequenceDescriptor :=
            { fileOffsetBytes := q, byteSize := 0, numberOfSamples := 0,
              keySequence := 0, keySample := 0 }
          refKeyLoop numeric isIncluded file k.2.2.1 k.2.1 sdN e.1 e.2
        else refKeyLoop numeric isIncluded file k.2.2.1 currentKey sd1 k.2.2.2 acc
termination_by file.length - p
decreasing_by
  all_goals
    have hb := refSkip_some_bounds h
    have hk := refKey_pos_ge file numeric q reg
    omega

/-- Whether a list starts with the UTF-8 byte-order mark. -/
def hasBOM (file : List Byte) : Prop :=
  file.getD 0 0 = 239 ∧ file.getD 1 0 = 187 ∧ file.getD 2 0 = 191

instance (file : List Byte) : Decidable (hasBOM file) := by
  unfold hasBOM; infer_instance

/-- The absolute offset at which the scan starts: 3 exactly when the first
refill returns more than three bytes and the file starts with the UTF-8
BOM; otherwise 0.  The first refill returns `min bufferSize file.length`
bytes, which is the only way the buffer capacity influences the scan. -/
def refStartOffset (file : List Byte) (bufferSize : Nat) : Nat :=
  if 3 < min bufferSize file.length ∧ hasBOM file then 3 else 0

/-- Reference result: registry, emission log and reserved size hint. -/
structure RefResult where
  registry : List Key
  computed : List (Nat × SequenceDescriptor)
  added : List SequenceDescriptor
  reserved : Option Nat
deriving Repr, DecidableEq

/-- The buffer-free scan: everything `Build` does, with the buffer
abstracted away; `o` is the start offset (`refStartOffset` in runs). -/
def refBuild (file : List Byte) (hasSequenceIds numeric : Bool) (pre : Byte)
    (isIncluded : Key → Bool) (reg0 : List Key) (o : Nat) :
    Except ScanError RefResult :=
  if file.length = 0 then .error .emptyInput
  else if hasSequenceIds = false ∨ file.getD o 0 = pre then
    let r := refLines numeric isIncluded file o reg0 0 { computed := [], added := [] }
    .ok { registry := r.1, computed := r.2.computed, added := r.2.added,
          reserved := some file.length }
  else
    let k := refKey file numeric o reg0
    if k.1 = false then .error (.noSequenceId o)
    else
      let sd0 : SequenceDescriptor :=
        { fileOffsetBytes := o, byteSize := 0, numberOfSamples := 0,
          keySequence := 0, keySample := 0 }
      let r := refKeyLoop numeric isIncluded file k.2.2.1 k.2.1 sd0 k.2.2.2
        { computed := [], added := [] }
      .ok { registry := r.1, computed := r.2.computed, added := r.2.added,
            reserved := some file.length }

/-- The observable outcome of `Build` (everything except the cursor state,
which legitimately differs across buffer capacities). -/
def buildObs (r : Except ScanError BuildResult) : Except ScanError RefResult :=
  r.map fun b => { registry := b.registry, computed := b.computed,
                   added := b.added, reserved := b.reserved }

/-- Consecutive exact tiling of `[lo, hi)` by descriptor byte ranges:
each descriptor starts where the previous one ended, every range is
non-empty, and the last one ends exactly at `hi`.  This captures at once
"strictly increasing", "non-overlapping" and "no gaps". -/
def Tiles : Nat → Nat → List SequenceDescriptor → Prop
  | lo, hi, [] => lo = hi
  | lo, hi, sd :: rest =>
    sd.fileOffsetBytes = lo ∧ 0 < sd.byteSize ∧ Tiles (lo + sd.byteSize) hi rest

instance instDecidableTiles : (lo hi : Nat) → (l : List SequenceDescriptor) →
    Decidable (Tiles lo hi l)
  | lo, hi, [] => inferInstanceAs (Decidable (lo = hi))
  | lo, hi, sd :: rest =>
    letI := instDecidableTiles (lo + sd.byteSize) hi rest
    inferInstanceAs (Decidable (_ ∧ _ ∧ _))

/-- Modelled from the spec: the emission contract — a single key, the one
derived from the sequence id the routine was handed, is used both for the
corpus-filter lookup and for the registry interning. -/
def specAddSequence (numeric : Bool) (isIncluded : Key → Bool) (reg : List Key)
    (sequenceId : Nat) (sd : SequenceDescriptor) : List Key × Option SequenceDescriptor :=
  let key := if numeric then natToKey sequenceId else reg.getD sequenceId []
  if isIncluded key then
    ((internKey reg key).1,
      some { sd with keySequence := (internKey reg key).2, keySample := 0 })
  else (reg, none)

/-! ### The cursor invariant relating the buffered scanner to the file -/

/-- Invariant tying a cursor state to the file it scans: the tracked
offsets delimit the buffer, the buffer holds exactly the corresponding
bytes of the file, the position is inside the buffer, and the exhausted
flag can be set only at end-of-file. -/
def Inv (file : List Byte) (s : IState) : Prop :=
  1 ≤ s.bufferSize ∧
  s.fileOffsetStart ≤ s.fileOffsetEnd ∧
  s.fileOffsetEnd ≤ file.length ∧
  s.buffer = (file.drop s.fileOffsetStart).take (s.fileOffsetEnd - s.fileOffsetStart) ∧
  s.posIdx ≤ s.buffer.length ∧
  (s.done = false ∨ file.length ≤ s.fileOffsetEnd)

instance (file : List Byte) (s : IState) : Decidable (Inv file s) := by
  unfold Inv; infer_instance

/-- Absolute offset of the read cursor (`GetFileOffset`). -/
theorem Inv.buffer_length {file : List Byte} {s : IState} (h : Inv file s) :
    s.buffer.length = s.fileOffsetEnd - s.fileOffsetStart := by
  obtain ⟨-, h1, h2, h4, -, -⟩ := h
  rw [h4, List.length_take, List.length_drop]
  omega

theorem Inv.pos_le_end {file : List Byte} {s : IState} (h : Inv file s) :
    GetFileOffset s ≤ s.fileOffsetEnd := by
  have hb := h.buffer_length
  obtain ⟨-, h1, -, -, h5, -⟩ := h
  unfold GetFileOffset
  omega

/-- The byte under the cursor agrees with the file. -/
theorem Inv.getD_buffer {file : List Byte} {s : IState} (h : Inv file s) {i : Nat}
    (hi : i < s.buffer.length) :
    s.buffer.getD i 0 = file.getD (s.fileOffsetStart + i) 0 := by
  have hb := h.buffer_length
  obtain ⟨-, h1, h2, h4, -, -⟩ := h
  rw [h4]
  rw [hb] at hi
  simp only [List.getD_eq_getElem?_getD]
  rw [List.getElem?_take, if_pos hi, List.getElem?_drop]

/-- The buffer window from the cursor onwards is a prefix of the file
from the cursor's absolute offset. -/
theorem Inv.window {file : List Byte} {s : IState} (h : Inv file s) :
    s.buffer.drop s.posIdx =
      (file.drop (GetFileOffset s)).take (s.fileOffsetEnd - GetFileOffset s) := by
  have hb := h.buffer_length
  have hpe := h.pos_le_end
  obtain ⟨-, h1, h2, h4, h5, -⟩ := h
  rw [h4, List.drop_take, List.drop_drop]
  unfold GetFileOffset at *
  congr 1
  omega

/-- The three possible outcomes of a refill, as explicit states. -/
theorem RefillBuffer_eq (file : List Byte) (s : IState) :
    RefillBuffer file s =
      if s.done = true then s
      else if freadCount file s = 0 then { s with done := true }
      else
        { s with
          fileOffsetStart := s.fileOffsetEnd,
          fileOffsetEnd := s.fileOffsetEnd + freadCount file s,
          buffer := (file.drop s.fileOffsetEnd).take (freadCount file s),
          posIdx := 0 } := rfl

/-- `RefillBuffer` preserves the invariant. -/
theorem Inv.refill {file : List Byte} {s : IState} (h : Inv file s) :
    Inv file (RefillBuffer file s) := by
  rw [RefillBuffer_eq]
  obtain ⟨h0, h1, h2, h4, h5, h6⟩ := h
  by_cases hd : s.done = true
  · rw [if_pos hd]
    exact ⟨h0, h1, h2, h4, h5, h6⟩
  · rw [if_neg hd]
    by_cases hz : freadCount file s = 0
    · rw [if_pos hz]
      have hz' : min s.bufferSize (file.length - s.fileOffsetEnd) = 0 := hz
      simp only [Nat.min_eq_zero_iff] at hz'
      refine ⟨h0, h1, h2, h4, h5, Or.inr ?_⟩
      show file.length ≤ s.fileOffsetEnd
      omega
    · rw [if_neg hz]
      have hle : freadCount file s ≤ file.length - s.fileOffsetEnd := Nat.min_le_right ..
      refine ⟨h0, ?_, ?_, ?_, ?_, Or.inl ?_⟩
      · show s.fileOffsetEnd ≤ s.fileOffsetEnd + freadCount file s
        omega
      · show s.fileOffsetEnd + freadCount file s ≤ file.length
        omega
      · show (file.drop s.fileOffsetEnd).take (freadCount file s) =
          (file.drop s.fileOffsetEnd).take (s.fileOffsetEnd + freadCount file s - s.fileOffsetEnd)
        congr 1
        omega
      · exact Nat.zero_le _
      · show s.done = false
        simpa using hd

/-- A refill starting before end-of-file does not exhaust the stream. -/
theorem refill_not_done {file : List Byte} {s : IState} (h0 : 1 ≤ s.bufferSize)
    (hd : s.done = false) (hlt : s.fileOffsetEnd < file.length) :
    (RefillBuffer file s).done = false ∧
      (RefillBuffer file s).fileOffsetStart = s.fileOffsetEnd ∧
      (RefillBuffer file s).posIdx = 0 ∧
      s.fileOffsetEnd < (RefillBuffer file s).fileOffsetEnd := by
  rw [RefillBuffer_eq]
  have hd' : ¬s.done = true := by simp [hd]
  have hz : ¬(freadCount file s = 0) := by
    show ¬(min s.bufferSize (file.length - s.fileOffsetEnd) = 0)
    simp only [Nat.min_eq_zero_iff]
    omega
  have hpos : 0 < freadCount file s := Nat.pos_of_ne_zero hz
  rw [if_neg hd', if_neg hz]
  refine ⟨hd, rfl, rfl, ?_⟩
  show s.fileOffsetEnd < s.fileOffsetEnd + freadCount file s
  omega

/-- A refill at end-of-file exhausts the stream and changes nothing else. -/
theorem refill_done {file : List Byte} {s : IState}
    (hd : s.done = false) (hge : file.length ≤ s.fileOffsetEnd) :
    RefillBuffer file s = { s with done := true } := by
  rw [RefillBuffer_eq]
  have hd' : ¬s.done = true := by simp [hd]
  have hz : freadCount file s = 0 := by
    show min s.bufferSize (file.length - s.fileOffsetEnd) = 0
    simp only [Nat.min_eq_zero_iff]
    omega
  rw [if_neg hd', if_pos hz]

/-- An exhausted invariant state has read exactly the whole file. -/
theorem Inv.end_of_done {file : List Byte} {s : IState} (h : Inv file s)
    (hd : s.done = true) : s.fileOffsetEnd = file.length := by
  obtain ⟨-, -, h2, -, -, h6⟩ := h
  rcases h6 with h6 | h6
  · rw [hd] at h6; cases h6
  · omega

/-- The delimiter search on the buffer window, reflected to the file:
a hit is a file-level hit that falls inside the window. -/
theorem memchrNL_window {file : List Byte} {s : IState} (h : Inv file s) :
    memchrNL s.buffer s.posIdx =
      (findNL (file.drop (GetFileOffset s))).bind
        (fun j => if j < s.fileOffsetEnd - GetFileOffset s then some (s.posIdx + j) else none) := by
  unfold memchrNL
  rw [h.window, findNL_take]
  cases hf : findNL (file.drop (GetFileOffset s)) with
  | none => rfl
  | some j =>
    by_cases hj : j < s.fileOffsetEnd - GetFileOffset s <;> simp [hj]

/-- Extending a delimiter-free stretch: if the file has no delimiter in
`[a, m)` then searching from `a` is searching from `m`, shifted. -/
theorem findNL_drop_stitch {file : List Byte} {a m : Nat} (ham : a ≤ m)
    (hmL : m ≤ file.length)
    (hnone : findNL ((file.drop a).take (m - a)) = none) :
    findNL (file.drop a) = (findNL (file.drop m)).map (fun j => (m - a) + j) := by
  have hsplit : file.drop a = (file.drop a).take (m - a) ++ file.drop m := by
    have : (file.drop a).drop (m - a) = file.drop m := by
      rw [List.drop_drop]
      congr 1
      omega
    conv_lhs => rw [← List.take_append_drop (m - a) (file.drop a)]
    rw [this]
  have hlen : ((file.drop a).take (m - a)).length = m - a := by
    rw [List.length_take, List.length_drop]
    omega
  conv_lhs => rw [hsplit]
  rw [findNL_append_right _ hnone, hlen]

/-- `Indexer::SkipLine` refines the reference skip: from an invariant,
non-exhausted state the cursor lands exactly past the next delimiter (or
exhausts the stream when none remains), independent of the buffer. -/
theorem SkipLineF_sim (file : List Byte) : ∀ (fuel : Nat) (s : IState), Inv file s →
    s.done = false → file.length + 2 ≤ fuel + s.fileOffsetEnd →
    ∃ t, SkipLineF file fuel s = some t ∧ Inv file t ∧
      (match refSkip file (GetFileOffset s) with
       | some q => GetFileOffset t = q ∧ (t.done = true ↔ q = file.length)
       | none => t.done = true) := by
  intro fuel
  induction fuel with
  | zero =>
    intro s h hd hfuel
    exfalso
    have h2 : s.fileOffsetEnd ≤ file.length := h.2.2.1
    omega
  | succ fuel ih =>
    intro s h hd hfuel
    have hd' : ¬s.done = true := by simp [hd]
    have hwinlen : s.buffer.length = s.fileOffsetEnd - s.fileOffsetStart := h.buffer_length
    have hEndLe : s.fileOffsetEnd ≤ file.length := h.2.2.1
    have hPosLe : GetFileOffset s ≤ s.fileOffsetEnd := h.pos_le_end
    have hB : 1 ≤ s.bufferSize := h.1
    simp only [SkipLineF]
    rw [if_neg hd', memchrNL_window h]
    unfold refSkip
    cases hf : findNL (file.drop (GetFileOffset s)) with
    | some j =>
      have hjlt : j < file.length - GetFileOffset s := by
        have := findNL_some_lt hf
        rwa [List.length_drop] at this
      rw [Option.some_bind]
      by_cases hj : j < s.fileOffsetEnd - GetFileOffset s
      · -- the delimiter is inside the current window
        rw [if_pos hj]
        dsimp only
        have hposlt : s.posIdx + j + 1 ≤ s.buffer.length := by
          unfold GetFileOffset at hj
          omega
        have hInv1 : Inv file { s with posIdx := s.posIdx + j + 1 } := by
          obtain ⟨i0, i1, i2, i4, i5, i6⟩ := h
          exact ⟨i0, i1, i2, i4, hposlt, i6⟩
        by_cases hend : s.posIdx + j + 1 = s.buffer.length
        · -- lands exactly on the window end: eager refill
          rw [if_pos hend]
          have hq : GetFileOffset s + j + 1 = s.fileOffsetEnd := by
            unfold GetFileOffset at *
            omega
          by_cases hL : s.fileOffsetEnd = file.length
          · refine ⟨_, rfl, hInv1.refill, ?_, ?_⟩
            · rw [@refill_done file { s with posIdx := s.posIdx + j + 1 } hd
                (le_of_eq hL.symm)]
              simp only [GetFileOffset]
              omega
            · rw [@refill_done file { s with posIdx := s.posIdx + j + 1 } hd
                (le_of_eq hL.symm)]
              exact iff_of_true rfl (show GetFileOffset s + j + 1 = file.length by omega)
          · obtain ⟨c1, c2, c3, c4⟩ :=
              @refill_not_done file { s with posIdx := s.posIdx + j + 1 } hB hd
                (show s.fileOffsetEnd < file.length by omega)
            have c2' : (RefillBuffer file { s with posIdx := s.posIdx + j + 1 }).fileOffsetStart
                = s.fileOffsetEnd := c2
            refine ⟨_, rfl, hInv1.refill, ?_, ?_⟩
            · have hq2 : s.fileOffsetStart + s.posIdx + j + 1 = s.fileOffsetEnd := by
                simpa only [GetFileOffset] using hq
              simp only [GetFileOffset]
              rw [c2', c3]
              omega
            · rw [c1]
              simp only [Bool.false_eq_true, false_iff]
              omega
        · -- still inside the window
          rw [if_neg hend]
          refine ⟨_, rfl, hInv1, ?_, ?_⟩
          · simp only [GetFileOffset]
            omega
          · simp only [hd, Bool.false_eq_true, false_iff]
            unfold GetFileOffset at hj hPosLe ⊢
            omega
      · -- delimiter beyond the window: refill and continue
        rw [if_neg hj]
        have hnone : findNL (s.buffer.drop s.posIdx) = none := by
          rw [h.window, findNL_take, hf]
          simp [hj]
        by_cases hL : s.fileOffsetEnd = file.length
        · exfalso
          unfold GetFileOffset at hj hjlt
          omega
        · obtain ⟨c1, c2, c3, c4⟩ := @refill_not_done file s hB hd (by omega)
          have hstitch := findNL_drop_stitch hPosLe hEndLe (by rwa [h.window] at hnone)
          rw [hf] at hstitch
          obtain ⟨t, ht, hinv, hconc⟩ := ih (RefillBuffer file s) h.refill c1 (by omega)
          refine ⟨t, ht, hinv, ?_⟩
          have ha' : GetFileOffset (RefillBuffer file s) = s.fileOffsetEnd := by
            unfold GetFileOffset
            rw [c2, c3]
            omega
          rw [ha'] at hconc
          cases hf2 : findNL (file.drop s.fileOffsetEnd) with
          | none => rw [hf2] at hstitch; simp at hstitch
          | some j2 =>
            rw [hf2] at hstitch
            simp only [Option.map_some'] at hstitch
            unfold refSkip at hconc
            rw [hf2] at hconc
            simp only [Option.map_some'] at hconc
            obtain ⟨e1, e2⟩ := hconc
            have hje : j = s.fileOffsetEnd - GetFileOffset s + j2 := by
              simpa using hstitch
            show GetFileOffset t = GetFileOffset s + j + 1 ∧
              (t.done = true ↔ GetFileOffset s + j + 1 = file.length)
            refine ⟨?_, ?_⟩
            · rw [e1]
              unfold GetFileOffset at *
              omega
            · rw [e2]
              unfold GetFileOffset at *
              constructor <;> intro hx <;> omega
    | none =>
      -- no delimiter anywhere ahead: the scan exhausts the stream
      rw [Option.none_bind]
      have hnone : findNL (s.buffer.drop s.posIdx) = none := by
        rw [h.window, findNL_take, hf]
        rfl
      have hrs : refSkip file (GetFileOffset s) = none := by
        unfold refSkip
        rw [hf]
        rfl
      by_cases hL : s.fileOffsetEnd = file.length
      · rw [@refill_done file s hd (by omega)]
        cases fuel with
        | zero => exfalso; omega
        | succ fuel =>
          refine ⟨{ s with done := true }, ?_, ?_, ?_⟩
          · rfl
          · obtain ⟨i0, i1, i2, i4, i5, i6⟩ := h
            exact ⟨i0, i1, i2, i4, i5, Or.inr (le_of_eq hL.symm)⟩
          · rfl
      · obtain ⟨c1, c2, c3, c4⟩ := @refill_not_done file s hB hd (by omega)
        have hstitch := findNL_drop_stitch hPosLe hEndLe (by rwa [h.window] at hnone)
        rw [hf] at hstitch
        have hf2 : findNL (file.drop s.fileOffsetEnd) = none := by
          cases hx : findNL (file.drop s.fileOffsetEnd)
          · rfl
          · rw [hx] at hstitch; simp at hstitch
        obtain ⟨t, ht, hinv, hconc⟩ := ih (RefillBuffer file s) h.refill c1 (by omega)
        refine ⟨t, ht, hinv, ?_⟩
        have ha' : GetFileOffset (RefillBuffer file s) = s.fileOffsetEnd := by
          unfold GetFileOffset
          rw [c2, c3]
          omega
        rw [ha'] at hconc
        unfold refSkip at hconc
        rw [hf2] at hconc
        exact hconc

/-! ### Simulation of `TryGetSequenceId` -/

theorem getD_eq_getElem {l : List Byte} {n : Nat} (h : n < l.length) :
    l.getD n 0 = l[n] := by
  simp [List.getD_eq_getElem?_getD, List.getElem?_eq_getElem h]

/-- Splitting the character run at a position whose byte satisfies `p`. -/
theorem takeWhile_drop_pos {file : List Byte} {a : Nat} (ha : a < file.length)
    {p : Byte → Bool} (hp : p (file.getD a 0) = true) :
    (file.drop a).takeWhile p = file.getD a 0 :: (file.drop (a + 1)).takeWhile p := by
  rw [getD_eq_getElem ha] at hp ⊢
  rw [List.drop_eq_getElem_cons ha, List.takeWhile_cons, if_pos hp]

/-- The character run is empty at a position whose byte violates `p`. -/
theorem takeWhile_drop_neg {file : List Byte} {a : Nat} (ha : a < file.length)
    {p : Byte → Bool} (hp : p (file.getD a 0) = false) :
    (file.drop a).takeWhile p = [] := by
  rw [getD_eq_getElem ha] at hp
  rw [List.drop_eq_getElem_cons ha, List.takeWhile_cons, if_neg (by simp [hp])]

/-- The character run is empty at or past end-of-file. -/
theorem takeWhile_drop_eof {file : List Byte} {a : Nat} (ha : file.length ≤ a)
    (p : Byte → Bool) : (file.drop a).takeWhile p = [] := by
  rw [List.drop_eq_nil_of_le ha]
  rfl

/-- The byte under the cursor is the file byte at the cursor's offset. -/
theorem Inv.cursor_byte {file : List Byte} {s : IState} (h : Inv file s)
    (hlt : s.posIdx < s.buffer.length) :
    s.buffer.getD s.posIdx 0 = file.getD (GetFileOffset s) 0 :=
  h.getD_buffer hlt

/-- The cursor of an invariant state sits at or before end-of-file, and
strictly before it while the window is non-empty. -/
theorem Inv.cursor_lt {file : List Byte} {s : IState} (h : Inv file s)
    (hlt : s.posIdx < s.buffer.length) : GetFileOffset s < file.length := by
  have hb := h.buffer_length
  have h2 := h.2.2.1
  unfold GetFileOffset
  omega

/-- `Indexer::TryGetSequenceId`, numeric mode, refines the reference key
parser: it consumes exactly the digit run at the cursor, folds it into the
id in `size_t` arithmetic, and reports `found` only when a terminating
non-digit byte lies before end-of-file. -/
theorem TryGetSeqIdF_sim_num (file : List Byte) : ∀ (fuel : Nat) (s : IState)
    (reg : List Key) (id0 : Nat) (key0 : Key) (found0 : Bool), Inv file s →
    s.done = false →
    (file.length - GetFileOffset s) + (file.length - s.fileOffsetEnd) + 2 ≤ fuel →
    ∃ r, TryGetSeqIdF file true fuel s reg id0 key0 found0 = some r ∧
      Inv file r.state ∧ r.registry = reg ∧
      r.id = (numKeyRun file (GetFileOffset s)).foldl digitStep id0 ∧
      r.found = ((found0 || !(numKeyRun file (GetFileOffset s)).isEmpty) &&
        decide (GetFileOffset s + (numKeyRun file (GetFileOffset s)).length < file.length)) ∧
      (GetFileOffset s + (numKeyRun file (GetFileOffset s)).length < file.length →
        GetFileOffset r.state = GetFileOffset s + (numKeyRun file (GetFileOffset s)).length ∧
          r.state.done = false) ∧
      (file.length ≤ GetFileOffset s + (numKeyRun file (GetFileOffset s)).length →
        r.state.done = true) := by
  intro fuel
  induction fuel with
  | zero =>
    intro s reg id0 key0 found0 h hd hfuel
    exfalso
    omega
  | succ fuel ih =>
    intro s reg id0 key0 found0 h hd hfuel
    have hd' : ¬s.done = true := by simp [hd]
    have hwinlen : s.buffer.length = s.fileOffsetEnd - s.fileOffsetStart := h.buffer_length
    have hEndLe : s.fileOffsetEnd ≤ file.length := h.2.2.1
    have hPosLe : GetFileOffset s ≤ s.fileOffsetEnd := h.pos_le_end
    have hB : 1 ≤ s.bufferSize := h.1
    simp only [TryGetSeqIdF]
    rw [if_neg hd']
    by_cases hwin : s.posIdx < s.buffer.length
    · rw [if_pos hwin]
      have hc := h.cursor_byte hwin
      have haL := h.cursor_lt hwin
      by_cases hdig : isDigitB (s.buffer.getD s.posIdx 0) = true
      · -- a digit: consume it and recurse
        rw [if_pos trivial, if_pos hdig]
        have hrun : numKeyRun file (GetFileOffset s) =
            file.getD (GetFileOffset s) 0 :: numKeyRun file (GetFileOffset s + 1) := by
          unfold numKeyRun
          exact takeWhile_drop_pos haL (by rw [← hc]; exact hdig)
        have hInv1 : Inv file { s with posIdx := s.posIdx + 1 } := by
          obtain ⟨i0, i1, i2, i4, i5, i6⟩ := h
          exact ⟨i0, i1, i2, i4, hwin, i6⟩
        have ha1 : GetFileOffset { s with posIdx := s.posIdx + 1 } = GetFileOffset s + 1 := by
          simp only [GetFileOffset]
          omega
        obtain ⟨r, hr, rInv, rreg, rid, rfound, rpos, rdone⟩ :=
          ih { s with posIdx := s.posIdx + 1 } reg (digitStep id0 (s.buffer.getD s.posIdx 0))
            key0 true hInv1 hd
            (show file.length - (GetFileOffset s + 1) + (file.length - s.fileOffsetEnd) + 2 ≤
              fuel by omega)
        rw [ha1] at rid rfound rpos rdone
        refine ⟨r, hr, rInv, rreg, ?_, ?_, ?_, ?_⟩
        · rw [rid, hrun]
          simp only [List.foldl_cons]
          rw [hc]
        · rw [rfound, hrun]
          simp only [List.isEmpty_cons, List.length_cons, Bool.true_or, Bool.or_true,
            Bool.not_false, Bool.true_and]
          have harith : GetFileOffset s + 1 + (numKeyRun file (GetFileOffset s + 1)).length =
              GetFileOffset s + ((numKeyRun file (GetFileOffset s + 1)).length + 1) := by omega
          rw [harith]
        · intro hlt
          rw [hrun] at hlt
          simp only [List.length_cons] at hlt
          obtain ⟨e1, e2⟩ := rpos (by omega)
          refine ⟨?_, e2⟩
          rw [e1, hrun]
          simp only [List.length_cons]
          omega
        · intro hge
          rw [hrun] at hge
          simp only [List.length_cons] at hge
          exact rdone (by omega)
      · -- a non-digit: stop without consuming
        rw [if_pos trivial, if_neg hdig]
        have hrun : numKeyRun file (GetFileOffset s) = [] := by
          unfold numKeyRun
          exact takeWhile_drop_neg haL (by rw [← hc]; simpa using hdig)
        refine ⟨_, rfl, h, rfl, ?_, ?_, ?_, ?_⟩
        · rw [hrun]
          rfl
        · rw [hrun]
          simp only [List.isEmpty_nil, Bool.not_true, Bool.or_false, List.length_nil,
            Nat.add_zero]
          rw [decide_eq_true haL, Bool.and_true]
        · intro _
          rw [hrun]
          simp only [List.length_nil, Nat.add_zero]
          exact ⟨by trivial, hd⟩
        · intro hge
          rw [hrun] at hge
          simp only [List.length_nil, Nat.add_zero] at hge
          omega
    · -- window exhausted: refill
      rw [if_neg hwin]
      have hae : GetFileOffset s = s.fileOffsetEnd := by
        have h5 := h.2.2.2.2.1
        have h1 := h.2.1
        unfold GetFileOffset
        omega
      by_cases hL : s.fileOffsetEnd = file.length
      · -- end-of-file: the refill exhausts the stream
        rw [@refill_done file s hd (le_of_eq hL.symm)]
        cases fuel with
        | zero => exfalso; omega
        | succ fuel =>
          have hrun : numKeyRun file (GetFileOffset s) = [] := by
            unfold numKeyRun
            exact takeWhile_drop_eof (by omega) _
          refine ⟨_, rfl, ?_, rfl, ?_, ?_, ?_, ?_⟩
          · obtain ⟨i0, i1, i2, i4, i5, i6⟩ := h
            exact ⟨i0, i1, i2, i4, i5, Or.inr (le_of_eq hL.symm)⟩
          · rw [hrun]
            rfl
          · rw [hrun]
            simp only [List.length_nil, Nat.add_zero]
            rw [decide_eq_false (by omega), Bool.and_false]
          · intro hlt
            rw [hrun] at hlt
            simp only [List.length_nil, Nat.add_zero] at hlt
            omega
          · intro _
            rfl
      · -- more of the file remains: refill and continue
        obtain ⟨c1, c2, c3, c4⟩ := @refill_not_done file s hB hd (by omega)
        have ha' : GetFileOffset (RefillBuffer file s) = GetFileOffset s := by
          unfold GetFileOffset at hae ⊢
          rw [c2, c3]
          omega
        obtain ⟨r, hr, rInv, rreg, rid, rfound, rpos, rdone⟩ :=
          ih (RefillBuffer file s) reg id0 key0 found0 h.refill c1 (by rw [ha']; omega)
        rw [ha'] at rid rfound rpos rdone
        exact ⟨r, hr, rInv, rreg, rid, rfound, rpos, rdone⟩

/-- `Indexer::TryGetSequenceId`, textual mode, refines the reference key
parser: it consumes exactly the non-whitespace run at the cursor and
interns the accumulated key only when a whitespace terminator lies before
end-of-file; at end-of-file it returns `found = false` with the registry
untouched. -/
theorem TryGetSeqIdF_sim_text (file : List Byte) : ∀ (fuel : Nat) (s : IState)
    (reg : List Key) (id0 : Nat) (key0 : Key) (found0 : Bool), Inv file s →
    s.done = false →
    (file.length - GetFileOffset s) + (file.length - s.fileOffsetEnd) + 2 ≤ fuel →
    ∃ r, TryGetSeqIdF file false fuel s reg id0 key0 found0 = some r ∧
      Inv file r.state ∧
      (GetFileOffset s + (textKeyRun file (GetFileOffset s)).length < file.length →
        (found0 || !(textKeyRun file (GetFileOffset s)).isEmpty) = true →
        r.found = true ∧
        r.registry = (internKey reg (key0 ++ textKeyRun file (GetFileOffset s))).1 ∧
        r.id = (internKey reg (key0 ++ textKeyRun file (GetFileOffset s))).2 ∧
        GetFileOffset r.state = GetFileOffset s + (textKeyRun file (GetFileOffset s)).length ∧
        r.state.done = false) ∧
      (GetFileOffset s + (textKeyRun file (GetFileOffset s)).length < file.length →
        (found0 || !(textKeyRun file (GetFileOffset s)).isEmpty) = false →
        r.found = false ∧ r.registry = reg ∧ r.id = id0 ∧
        GetFileOffset r.state = GetFileOffset s + (textKeyRun file (GetFileOffset s)).length ∧
        r.state.done = false) ∧
      (file.length ≤ GetFileOffset s + (textKeyRun file (GetFileOffset s)).length →
        r.found = false ∧ r.registry = reg ∧ r.id = id0 ∧ r.state.done = true) := by
  intro fuel
  induction fuel with
  | zero =>
    intro s reg id0 key0 found0 h hd hfuel
    exfalso
    omega
  | succ fuel ih =>
    intro s reg id0 key0 found0 h hd hfuel
    have hd' : ¬s.done = true := by simp [hd]
    have hwinlen : s.buffer.length = s.fileOffsetEnd - s.fileOffsetStart := h.buffer_length
    have hEndLe : s.fileOffsetEnd ≤ file.length := h.2.2.1
    have hPosLe : GetFileOffset s ≤ s.fileOffsetEnd := h.pos_le_end
    have hB : 1 ≤ s.bufferSize := h.1
    simp only [TryGetSeqIdF]
    rw [if_neg hd']
    by_cases hwin : s.posIdx < s.buffer.length
    · rw [if_pos hwin, if_neg Bool.false_ne_true]
      have hc := h.cursor_byte hwin
      have haL := h.cursor_lt hwin
      by_cases hsp : isSpaceB (s.buffer.getD s.posIdx 0) = true
      · -- whitespace terminator: stop (and intern if a key was accumulated)
        rw [if_pos hsp]
        have hrun : textKeyRun file (GetFileOffset s) = [] := by
          unfold textKeyRun
          refine takeWhile_drop_neg haL ?_
          show (!isSpaceB (file.getD (GetFileOffset s) 0)) = false
          rw [← hc, hsp]
          rfl
        rw [hrun]
        simp only [List.isEmpty_nil, Bool.not_true, Bool.or_false, List.length_nil,
          Nat.add_zero, List.append_nil]
        cases found0 with
        | true =>
          rw [if_pos rfl]
          cases hm : registryTryGet reg key0 with
          | some i =>
            refine ⟨_, rfl, h, ?_, ?_, ?_⟩
            · intro _ _
              unfold internKey
              rw [hm]
              exact ⟨rfl, rfl, rfl, rfl, hd⟩
            · intro _ hfalse
              cases hfalse
            · intro hge
              omega
          | none =>
            refine ⟨_, rfl, h, ?_, ?_, ?_⟩
            · intro _ _
              unfold internKey
              rw [hm]
              exact ⟨rfl, rfl, rfl, rfl, hd⟩
            · intro _ hfalse
              cases hfalse
            · intro hge
              omega
        | false =>
          rw [if_neg Bool.false_ne_true]
          refine ⟨_, rfl, h, ?_, ?_, ?_⟩
          · intro _ htrue
            cases htrue
          · intro _ _
            exact ⟨rfl, rfl, rfl, rfl, hd⟩
          · intro hge
            omega
      · -- a key byte: accumulate and recurse
        rw [if_neg hsp]
        have hsp' : isSpaceB (file.getD (GetFileOffset s) 0) = false := by
          rw [← hc]
          cases hx : isSpaceB (s.buffer.getD s.posIdx 0)
          · rfl
          · exact absurd hx hsp
        have hrun : textKeyRun file (GetFileOffset s) =
            file.getD (GetFileOffset s) 0 :: textKeyRun file (GetFileOffset s + 1) := by
          unfold textKeyRun
          refine takeWhile_drop_pos haL ?_
          show (!isSpaceB (file.getD (GetFileOffset s) 0)) = true
          rw [hsp']
          rfl
        have hInv1 : Inv file { s with posIdx := s.posIdx + 1 } := by
          obtain ⟨i0, i1, i2, i4, i5, i6⟩ := h
          exact ⟨i0, i1, i2, i4, hwin, i6⟩
        have ha1 : GetFileOffset { s with posIdx := s.posIdx + 1 } = GetFileOffset s + 1 := by
          simp only [GetFileOffset]
          omega
        obtain ⟨r, hr, rInv, rb1, rb2, rb3⟩ :=
          ih { s with posIdx := s.posIdx + 1 } reg id0 (key0 ++ [s.buffer.getD s.posIdx 0])
            true hInv1 hd
            (show file.length - (GetFileOffset s + 1) + (file.length - s.fileOffsetEnd) + 2 ≤
              fuel by omega)
        rw [ha1] at rb1 rb2 rb3
        have hkey : key0 ++ [s.buffer.getD s.posIdx 0] ++ textKeyRun file (GetFileOffset s + 1)
            = key0 ++ textKeyRun file (GetFileOffset s) := by
          rw [hrun, hc, List.append_assoc, List.singleton_append]
        rw [hkey] at rb1
        refine ⟨r, hr, rInv, ?_, ?_, ?_⟩
        · intro hlt _
          rw [hrun] at hlt
          simp only [List.length_cons] at hlt
          obtain ⟨e1, e2, e3, e4, e5⟩ := rb1 (by omega) (by simp)
          refine ⟨e1, e2, e3, ?_, e5⟩
          rw [e4, hrun]
          simp only [List.length_cons]
          omega
        · intro _ hfalse
          rw [hrun] at hfalse
          simp at hfalse
        · intro hge
          rw [hrun] at hge
          simp only [List.length_cons] at hge
          exact rb3 (by omega)
    · -- window exhausted: refill
      rw [if_neg hwin]
      have hae : GetFileOffset s = s.fileOffsetEnd := by
        have h5 := h.2.2.2.2.1
        have h1 := h.2.1
        unfold GetFileOffset
        omega
      by_cases hL : s.fileOffsetEnd = file.length
      · -- end-of-file: the refill exhausts the stream
        rw [@refill_done file s hd (le_of_eq hL.symm)]
        cases fuel with
        | zero => exfalso; omega
        | succ fuel =>
          have hrun : textKeyRun file (GetFileOffset s) = [] := by
            unfold textKeyRun
            exact takeWhile_drop_eof (by omega) _
          rw [hrun]
          simp only [List.length_nil, Nat.add_zero]
          refine ⟨_, rfl, ?_, ?_, ?_, ?_⟩
          · obtain ⟨i0, i1, i2, i4, i5, i6⟩ := h
            exact ⟨i0, i1, i2, i4, i5, Or.inr (le_of_eq hL.symm)⟩
          · intro hlt _
            omega
          · intro hlt _
            omega
          · intro _
            exact ⟨rfl, rfl, rfl, rfl⟩
      · -- more of the file remains: refill and continue
        obtain ⟨c1, c2, c3, c4⟩ := @refill_not_done file s hB hd (by omega)
        have ha' : GetFileOffset (RefillBuffer file s) = GetFileOffset s := by
          unfold GetFileOffset at hae ⊢
          rw [c2, c3]
          omega
        obtain ⟨r, hr, rInv, rb1, rb2, rb3⟩ :=
          ih (RefillBuffer file s) reg id0 key0 found0 h.refill c1 (by rw [ha']; omega)
        rw [ha'] at rb1 rb2 rb3
        exact ⟨r, hr, rInv, rb1, rb2, rb3⟩

/-- `Indexer::TryGetSequenceId` (entry point, either mode) refines
`refKey`: the returned flag, id, registry and cursor position are the
reference key parser's, for the standard fuel budget. -/
theorem TryGetSequenceId_sim (file : List Byte) (numeric : Bool) {s : IState}
    (reg : List Key) (h : Inv file s) (hd : s.done = false) :
    ∃ r, TryGetSequenceId file numeric (2 * file.length + 4) s reg = some r ∧
      Inv file r.state ∧
      r.found = (refKey file numeric (GetFileOffset s) reg).1 ∧
      r.id = (refKey file numeric (GetFileOffset s) reg).2.1 ∧
      r.registry = (refKey file numeric (GetFileOffset s) reg).2.2.2 ∧
      ((refKey file numeric (GetFileOffset s) reg).2.2.1 < file.length →
        GetFileOffset r.state = (refKey file numeric (GetFileOffset s) reg).2.2.1 ∧
          r.state.done = false) ∧
      (file.length ≤ (refKey file numeric (GetFileOffset s) reg).2.2.1 →
        r.state.done = true) := by
  have hEndLe : s.fileOffsetEnd ≤ file.length := h.2.2.1
  have hPosLe : GetFileOffset s ≤ s.fileOffsetEnd := h.pos_le_end
  have hfuel : (file.length - GetFileOffset s) + (file.length - s.fileOffsetEnd) + 2 ≤
      2 * file.length + 4 := by omega
  unfold TryGetSequenceId
  cases numeric with
  | true =>
    obtain ⟨r, hr, rInv, rreg, rid, rfound, rpos, rdone⟩ :=
      TryGetSeqIdF_sim_num file (2 * file.length + 4) s reg 0 [] false h hd hfuel
    refine ⟨r, hr, rInv, ?_, ?_, ?_, ?_, ?_⟩
    · rw [rfound]
      unfold refKey
      rw [if_pos rfl, Bool.false_or]
    · rw [rid]
      unfold refKey
      rw [if_pos rfl]
    · rw [rreg]
      unfold refKey
      rw [if_pos rfl]
    · unfold refKey
      rw [if_pos rfl]
      exact rpos
    · unfold refKey
      rw [if_pos rfl]
      exact rdone
  | false =>
    obtain ⟨r, hr, rInv, rb1, rb2, rb3⟩ :=
      TryGetSeqIdF_sim_text file (2 * file.length + 4) s reg 0 [] false h hd hfuel
    have hkey : ([] : Key) ++ textKeyRun file (GetFileOffset s) =
        textKeyRun file (GetFileOffset s) := List.nil_append _
    rw [hkey] at rb1
    by_cases hq : GetFileOffset s + (textKeyRun file (GetFileOffset s)).length < file.length
    · by_cases hne : (!(textKeyRun file (GetFileOffset s)).isEmpty) = true
      · obtain ⟨e1, e2, e3, e4, e5⟩ := rb1 hq (by rw [Bool.false_or]; exact hne)
        have hcond : (!(textKeyRun file (GetFileOffset s)).isEmpty &&
            decide (GetFileOffset s + (textKeyRun file (GetFileOffset s)).length
              < file.length)) = true := by
          rw [hne, decide_eq_true hq]
          rfl
        refine ⟨r, hr, rInv, ?_, ?_, ?_, ?_, ?_⟩
        · rw [e1]
          unfold refKey
          rw [if_neg Bool.false_ne_true, if_pos hcond]
        · rw [e3]
          unfold refKey
          rw [if_neg Bool.false_ne_true, if_pos hcond]
        · rw [e2]
          unfold refKey
          rw [if_neg Bool.false_ne_true, if_pos hcond]
        · unfold refKey
          rw [if_neg Bool.false_ne_true, if_pos hcond]
          intro _
          exact ⟨e4, e5⟩
        · unfold refKey
          rw [if_neg Bool.false_ne_true, if_pos hcond]
          intro hge
          have hge2 : file.length ≤ GetFileOffset s +
              (textKeyRun file (GetFileOffset s)).length := hge
          omega
      · have hne' : (!(textKeyRun file (GetFileOffset s)).isEmpty) = false := by
          cases hx : (!(textKeyRun file (GetFileOffset s)).isEmpty)
          · rfl
          · exact absurd hx hne
        obtain ⟨e1, e2, e3, e4, e5⟩ := rb2 hq (by rw [Bool.false_or]; exact hne')
        have hcond : (!(textKeyRun file (GetFileOffset s)).isEmpty &&
            decide (GetFileOffset s + (textKeyRun file (GetFileOffset s)).length
              < file.length)) = false := by
          rw [hne']
          rfl
        refine ⟨r, hr, rInv, ?_, ?_, ?_, ?_, ?_⟩
        · rw [e1]
          unfold refKey
          rw [if_neg Bool.false_ne_true, if_neg (by rw [hcond]; exact Bool.false_ne_true)]
        · rw [e3]
          unfold refKey
          rw [if_neg Bool.false_ne_true, if_neg (by rw [hcond]; exact Bool.false_ne_true)]
        · rw [e2]
          unfold refKey
          rw [if_neg Bool.false_ne_true, if_neg (by rw [hcond]; exact Bool.false_ne_true)]
        · unfold refKey
          rw [if_neg Bool.false_ne_true, if_neg (by rw [hcond]; exact Bool.false_ne_true)]
          intro _
          exact ⟨e4, e5⟩
        · unfold refKey
          rw [if_neg Bool.false_ne_true, if_neg (by rw [hcond]; exact Bool.false_ne_true)]
          intro hge
          have hge2 : file.length ≤ GetFileOffset s +
              (textKeyRun file (GetFileOffset s)).length := hge
          omega
    · obtain ⟨e1, e2, e3, e4⟩ := rb3 (by omega)
      have hcond : (!(textKeyRun file (GetFileOffset s)).isEmpty &&
          decide (GetFileOffset s + (textKeyRun file (GetFileOffset s)).length
            < file.length)) = false := by
        rw [decide_eq_false hq, Bool.and_false]
      refine ⟨r, hr, rInv, ?_, ?_, ?_, ?_, ?_⟩
      · rw [e1]
        unfold refKey
        rw [if_neg Bool.false_ne_true, if_neg (by rw [hcond]; exact Bool.false_ne_true)]
      · rw [e3]
        unfold refKey
        rw [if_neg Bool.false_ne_true, if_neg (by rw [hcond]; exact Bool.false_ne_true)]
      · rw [e2]
        unfold refKey
        rw [if_neg Bool.false_ne_true, if_neg (by rw [hcond]; exact Bool.false_ne_true)]
      · unfold refKey
        rw [if_neg Bool.false_ne_true, if_neg (by rw [hcond]; exact Bool.false_ne_true)]
        intro hlt
        have hlt2 : GetFileOffset s +
            (textKeyRun file (GetFileOffset s)).length < file.length := hlt
        omega
      · unfold refKey
        rw [if_neg Bool.false_ne_true, if_neg (by rw [hcond]; exact Bool.false_ne_true)]
        intro _
        exact e4

/-! ### Simulation of `BuildFromLines` -/

theorem refLines_some {numeric : Bool} {isIncluded : Key → Bool} {file : List Byte}
    {o j : Nat} {reg : List Key} {lines : Nat} {acc : ScanAcc}
    (h : findNL (file.drop o) = some j) :
    refLines numeric isIncluded file o reg lines acc =
      refLines numeric isIncluded file (o + j + 1)
        (emitSeq numeric isIncluded reg acc lines
          { fileOffsetBytes := o, byteSize := j + 1, numberOfSamples := 1,
            keySequence := 0, keySample := 0 }).1 (lines + 1)
        (emitSeq numeric isIncluded reg acc lines
          { fileOffsetBytes := o, byteSize := j + 1, numberOfSamples := 1,
            keySequence := 0, keySample := 0 }).2 := by
  conv_lhs => rw [refLines]
  split
  · next j2 heq =>
    rw [h] at heq
    cases heq
    rfl
  · next heq => rw [h] at heq; cases heq

theorem refLines_none {numeric : Bool} {isIncluded : Key → Bool} {file : List Byte}
    {o : Nat} {reg : List Key} {lines : Nat} {acc : ScanAcc}
    (h : findNL (file.drop o) = none) :
    refLines numeric isIncluded file o reg lines acc =
      if o < file.length then
        emitSeq numeric isIncluded reg acc lines
          { fileOffsetBytes := o, byteSize := file.length - o, numberOfSamples := 1,
            keySequence := 0, keySample := 0 }
      else (reg, acc) := by
  conv_lhs => rw [refLines]
  split
  · next j2 heq => rw [h] at heq; cases heq
  · rfl

/-- A delimiter-free span of the file, as a window. -/
theorem findNL_segment_none {file : List Byte} {o m : Nat}
    (hno : ∀ i, o ≤ i → i < m → file.getD i 0 ≠ 10) :
    findNL ((file.drop o).take (m - o)) = none := by
  apply findNL_eq_none_of_all
  intro c hcmem
  obtain ⟨i, hi, hci⟩ := List.mem_iff_getElem.mp hcmem
  simp only [List.length_take, List.length_drop, lt_min_iff] at hi
  have hoi : o + i < file.length := by omega
  have hval : c = file.getD (o + i) 0 := by
    rw [← hci, getD_eq_getElem hoi, List.getElem_take, List.getElem_drop]
  rw [hval]
  exact hno (o + i) (by omega) (by omega)

/-- `Indexer::BuildFromLines` refines `refLines`: starting from a state
whose cursor has seen no delimiter since `offset`, the buffered loop
produces exactly the reference line split of the file from `offset`. -/
theorem BuildFromLinesF_sim (file : List Byte) (numeric : Bool) (isIncluded : Key → Bool) :
    ∀ (fuel : Nat) (s : IState) (reg : List Key) (lines offset : Nat) (acc : ScanAcc),
    Inv file s → s.done = false →
    offset ≤ GetFileOffset s →
    (∀ i, offset ≤ i → i < GetFileOffset s → file.getD i 0 ≠ 10) →
    (file.length - offset) + (file.length - s.fileOffsetEnd) + 2 ≤ fuel →
    ∃ t, BuildFromLinesF file numeric isIncluded fuel s reg lines offset acc =
      some (t, refLines numeric isIncluded file offset reg lines acc) := by
  intro fuel
  induction fuel with
  | zero =>
    intro s reg lines offset acc h hd hoff hno hfuel
    exfalso
    have h2 : s.fileOffsetEnd ≤ file.length := h.2.2.1
    omega
  | succ fuel ih =>
    intro s reg lines offset acc h hd hoff hno hfuel
    have hd' : ¬s.done = true := by simp [hd]
    have hwinlen : s.buffer.length = s.fileOffsetEnd - s.fileOffsetStart := h.buffer_length
    have hEndLe : s.fileOffsetEnd ≤ file.length := h.2.2.1
    have hPosLe : GetFileOffset s ≤ s.fileOffsetEnd := h.pos_le_end
    have hB : 1 ≤ s.bufferSize := h.1
    have hstitch : findNL (file.drop offset) =
        (findNL (file.drop (GetFileOffset s))).map
          (fun j => (GetFileOffset s - offset) + j) :=
      findNL_drop_stitch hoff (by omega) (findNL_segment_none hno)
    simp only [BuildFromLinesF]
    rw [if_neg hd', memchrNL_window h]
    cases hf : findNL (file.drop (GetFileOffset s)) with
    | some j =>
      rw [hf] at hstitch
      simp only [Option.map_some'] at hstitch
      have hjlt : j < file.length - GetFileOffset s := by
        have := findNL_some_lt hf
        rwa [List.length_drop] at this
      rw [Option.some_bind]
      by_cases hj : j < s.fileOffsetEnd - GetFileOffset s
      · -- the delimiter is inside the window: emit the line
        rw [if_pos hj]
        dsimp only
        have hofs : s.fileOffsetStart + (s.posIdx + j) + 1 = GetFileOffset s + j + 1 := by
          unfold GetFileOffset
          omega
        have hsd : s.fileOffsetStart + (s.posIdx + j) + 1 - offset =
            GetFileOffset s - offset + j + 1 := by
          unfold GetFileOffset at *
          omega
        have hInv1 : Inv file { s with posIdx := s.posIdx + j + 1 } := by
          obtain ⟨i0, i1, i2, i4, i5, i6⟩ := h
          refine ⟨i0, i1, i2, i4, ?_, i6⟩
          show s.posIdx + j + 1 ≤ s.buffer.length
          unfold GetFileOffset at hj
          omega
        have ha1 : GetFileOffset { s with posIdx := s.posIdx + j + 1 } =
            GetFileOffset s + j + 1 := by
          simp only [GetFileOffset]
          omega
        obtain ⟨t, ht⟩ := ih { s with posIdx := s.posIdx + j + 1 }
          (emitSeq numeric isIncluded reg acc lines
            { fileOffsetBytes := offset,
              byteSize := s.fileOffsetStart + (s.posIdx + j) + 1 - offset,
              numberOfSamples := 1, keySequence := 0, keySample := 0 }).1
          (lines + 1) (s.fileOffsetStart + (s.posIdx + j) + 1)
          (emitSeq numeric isIncluded reg acc lines
            { fileOffsetBytes := offset,
              byteSize := s.fileOffsetStart + (s.posIdx + j) + 1 - offset,
              numberOfSamples := 1, keySequence := 0, keySample := 0 }).2
          hInv1 hd (by rw [ha1, hofs])
          (by
            rw [ha1]
            intro i hi1 hi2
            exfalso
            rw [hofs] at hi1
            omega)
          (by
            show file.length - (s.fileOffsetStart + (s.posIdx + j) + 1) +
              (file.length - s.fileOffsetEnd) + 2 ≤ fuel
            rw [hofs]
            omega)
        refine ⟨t, ?_⟩
        rw [ht, refLines_some hstitch]
        have hpos2 : offset + (GetFileOffset s - offset + j) + 1 = GetFileOffset s + j + 1 := by
          omega
        rw [hsd, hofs, hpos2]
      · -- delimiter beyond the window: refill and keep scanning
        rw [if_neg hj]
        have hnone : findNL (s.buffer.drop s.posIdx) = none := by
          rw [h.window, findNL_take, hf]
          simp [hj]
        by_cases hL : s.fileOffsetEnd = file.length
        · exfalso
          unfold GetFileOffset at hj hjlt
          omega
        · obtain ⟨c1, c2, c3, c4⟩ := @refill_not_done file s hB hd (by omega)
          have ha' : GetFileOffset (RefillBuffer file s) = s.fileOffsetEnd := by
            unfold GetFileOffset
            rw [c2, c3]
            omega
          obtain ⟨t, ht⟩ := ih (RefillBuffer file s) reg lines offset acc h.refill c1
            (by rw [ha']; omega)
            (by
              rw [ha']
              intro i hi1 hi2
              by_cases hia : i < GetFileOffset s
              · exact hno i hi1 hia
              · have hwnone := hnone
                rw [h.window] at hwnone
                have : findNL ((file.drop (GetFileOffset s)).take
                    (s.fileOffsetEnd - GetFileOffset s)) = none := hwnone
                rw [findNL_eq_none_iff] at this
                intro hc10
                apply this (file.getD i 0) ?_ hc10
                have hiL : i < file.length := by omega
                have hlen2 : i - GetFileOffset s < ((file.drop (GetFileOffset s)).take
                    (s.fileOffsetEnd - GetFileOffset s)).length := by
                  simp only [List.length_take, List.length_drop, lt_min_iff]
                  omega
                have hgetm : ((file.drop (GetFileOffset s)).take
                    (s.fileOffsetEnd - GetFileOffset s)).get
                      ⟨i - GetFileOffset s, hlen2⟩ = file.getD i 0 := by
                  rw [List.get_eq_getElem, List.getElem_take, List.getElem_drop,
                    getD_eq_getElem hiL]
                  dsimp only
                  congr 1
                  omega
                exact List.mem_iff_get.mpr ⟨⟨i - GetFileOffset s, hlen2⟩, hgetm⟩
              )
            (by omega)
          exact ⟨t, ht⟩
    | none =>
      -- no delimiter remains: drain the file, then emit any trailing bytes
      rw [hf] at hstitch
      simp only [Option.map_none'] at hstitch
      rw [Option.none_bind]
      have hnone : findNL (s.buffer.drop s.posIdx) = none := by
        rw [h.window, findNL_take, hf]
        rfl
      by_cases hL : s.fileOffsetEnd = file.length
      · rw [@refill_done file s hd (by omega)]
        cases fuel with
        | zero =>
          exfalso
          omega
        | succ fuel =>
          simp only [BuildFromLinesF]
          rw [if_pos trivial, refLines_none hstitch]
          by_cases htrail : offset < file.length
          · rw [if_pos (show offset < s.fileOffsetEnd by omega), if_pos htrail]
            exact ⟨_, by rw [hL]⟩
          · rw [if_neg (show ¬offset < s.fileOffsetEnd by omega), if_neg htrail]
            exact ⟨_, rfl⟩
      · obtain ⟨c1, c2, c3, c4⟩ := @refill_not_done file s hB hd (by omega)
        have ha' : GetFileOffset (RefillBuffer file s) = s.fileOffsetEnd := by
          unfold GetFileOffset
          rw [c2, c3]
          omega
        obtain ⟨t, ht⟩ := ih (RefillBuffer file s) reg lines offset acc h.refill c1
          (by rw [ha']; omega)
          (by
            rw [ha']
            intro i hi1 hi2
            by_cases hia : i < GetFileOffset s
            · exact hno i hi1 hia
            · have hwnone := hnone
              rw [h.window] at hwnone
              have : findNL ((file.drop (GetFileOffset s)).take
                  (s.fileOffsetEnd - GetFileOffset s)) = none := hwnone
              rw [findNL_eq_none_iff] at this
              intro hc10
              apply this (file.getD i 0) ?_ hc10
              have hiL : i < file.length := by omega
              have hlen2 : i - GetFileOffset s < ((file.drop (GetFileOffset s)).take
                  (s.fileOffsetEnd - GetFileOffset s)).length := by
                simp only [List.length_take, List.length_drop, lt_min_iff]
                omega
              have hgetm : ((file.drop (GetFileOffset s)).take
                  (s.fileOffsetEnd - GetFileOffset s)).get
                    ⟨i - GetFileOffset s, hlen2⟩ = file.getD i 0 := by
                rw [List.get_eq_getElem, List.getElem_take, List.getElem_drop,
                  getD_eq_getElem hiL]
                dsimp only
                congr 1
                omega
              exact List.mem_iff_get.mpr ⟨⟨i - GetFileOffset s, hlen2⟩, hgetm⟩
            )
          (by omega)
        exact ⟨t, ht⟩

/-! ### Simulation of the key-grouped loop of `Build` -/

theorem refKeyLoop_noNL {numeric : Bool} {isIncluded : Key → Bool} {file : List Byte}
    {p ck : Nat} {sd : SequenceDescriptor} {reg : List Key} {acc : ScanAcc}
    (h : refSkip file p = none) :
    refKeyLoop numeric isIncluded file p ck sd reg acc =
      emitSeq numeric isIncluded reg acc ck
        { sd with
          numberOfSamples := sd.numberOfSamples + 1,
          byteSize := file.length - sd.fileOffsetBytes } := by
  conv_lhs => rw [refKeyLoop]
  split
  · rfl
  · next q heq => rw [h] at heq; cases heq

theorem refKeyLoop_atEOF {numeric : Bool} {isIncluded : Key → Bool} {file : List Byte}
    {p ck : Nat} {sd : SequenceDescriptor} {reg : List Key} {acc : ScanAcc}
    (h : refSkip file p = some file.length) :
    refKeyLoop numeric isIncluded file p ck sd reg acc =
      emitSeq numeric isIncluded reg acc ck
        { sd with
          numberOfSamples := sd.numberOfSamples + 1,
          byteSize := file.length - sd.fileOffsetBytes } := by
  conv_lhs => rw [refKeyLoop]
  split
  · next heq => rw [h] at heq
  · next q heq =>
    rw [h] at heq
    cases heq
    rw [if_pos rfl]

theorem refKeyLoop_keyEOF {numeric : Bool} {isIncluded : Key → Bool} {file : List Byte}
    {p q ck : Nat} {sd : SequenceDescriptor} {reg : List Key} {acc : ScanAcc}
    (h : refSkip file p = some q) (hq : q ≠ file.length)
    (hk : (refKey file numeric q reg).2.2.1 = file.length) :
    refKeyLoop numeric isIncluded file p ck sd reg acc =
      emitSeq numeric isIncluded (refKey file numeric q reg).2.2.2 acc ck
        { sd with
          numberOfSamples := sd.numberOfSamples + 1,
          byteSize := file.length - sd.fileOffsetBytes } := by
  conv_lhs => rw [refKeyLoop]
  split
  · next heq => rw [h] at heq; cases heq
  · next q2 heq =>
    rw [h] at heq
    cases heq
    rw [if_neg hq]
    dsimp only
    rw [if_pos hk]

theorem refKeyLoop_stepNew {numeric : Bool} {isIncluded : Key → Bool} {file : List Byte}
    {p q ck : Nat} {sd : SequenceDescriptor} {reg : List Key} {acc : ScanAcc}
    (h : refSkip file p = some q) (hq : q ≠ file.length)
    (hk : ¬(refKey file numeric q reg).2.2.1 = file.length)
    (hcond : (refKey file numeric q reg).1 = true ∧ (refKey file numeric q reg).2.1 ≠ ck) :
    refKeyLoop numeric isIncluded file p ck sd reg acc =
      refKeyLoop numeric isIncluded file (refKey file numeric q reg).2.2.1
        (refKey file numeric q reg).2.1
        { fileOffsetBytes := q, byteSize := 0, numberOfSamples := 0,
          keySequence := 0, keySample := 0 }
        (emitSeq numeric isIncluded (refKey file numeric q reg).2.2.2 acc ck
          { sd with
            numberOfSamples := sd.numberOfSamples + 1,
            byteSize := q - sd.fileOffsetBytes }).1
        (emitSeq numeric isIncluded (refKey file numeric q reg).2.2.2 acc ck
          { sd with
            numberOfSamples := sd.numberOfSamples + 1,
            byteSize := q - sd.fileOffsetBytes }).2 := by
  conv_lhs => rw [refKeyLoop]
  split
  · next heq => rw [h] at heq; cases heq
  · next q2 heq =>
    rw [h] at heq
    cases heq
    rw [if_neg hq]
    dsimp only
    rw [if_neg hk, if_pos hcond]

theorem refKeyLoop_stepSame {numeric : Bool} {isIncluded : Key → Bool} {file : List Byte}
    {p q ck : Nat} {sd : SequenceDescriptor} {reg : List Key} {acc : ScanAcc}
    (h : refSkip file p = some q) (hq : q ≠ file.length)
    (hk : ¬(refKey file numeric q reg).2.2.1 = file.length)
    (hcond : ¬((refKey file numeric q reg).1 = true ∧ (refKey file numeric q reg).2.1 ≠ ck)) :
    refKeyLoop numeric isIncluded file p ck sd reg acc =
      refKeyLoop numeric isIncluded file (refKey file numeric q reg).2.2.1 ck
        { sd with numberOfSamples := sd.numberOfSamples + 1 }
        (refKey file numeric q reg).2.2.2 acc := by
  conv_lhs => rw [refKeyLoop]
  split
  · next heq => rw [h] at heq; cases heq
  · next q2 heq =>
    rw [h] at heq
    cases heq
    rw [if_neg hq]
    dsimp only
    rw [if_neg hk, if_neg hcond]

/-- A key parse that runs to end-of-file reports `found = false`. -/
theorem refKey_eof_not_found {file : List Byte} {numeric : Bool} {p : Nat}
    {reg : List Key} (hk : file.length ≤ (refKey file numeric p reg).2.2.1) :
    (refKey file numeric p reg).1 = false := by
  unfold refKey at *
  cases numeric with
  | true =>
    rw [if_pos rfl] at hk ⊢
    have hk2 : file.length ≤ p + (numKeyRun file p).length := hk
    show (!(numKeyRun file p).isEmpty &&
      decide (p + (numKeyRun file p).length < file.length)) = false
    rw [decide_eq_false (by omega), Bool.and_false]
  | false =>
    rw [if_neg Bool.false_ne_true] at hk ⊢
    by_cases hcond : (!(textKeyRun file p).isEmpty &&
        decide (p + (textKeyRun file p).length < file.length)) = true
    · exfalso
      rw [if_pos hcond] at hk
      have hk2 : file.length ≤ p + (textKeyRun file p).length := hk
      simp only [Bool.and_eq_true, decide_eq_true_eq] at hcond
      omega
    · rw [if_neg hcond]

/-- Key-parse positions never leave the file. -/
theorem refKey_pos_le_len {file : List Byte} {numeric : Bool} {p : Nat}
    {reg : List Key} (hp : p ≤ file.length) :
    (refKey file numeric p reg).2.2.1 ≤ file.length := by
  unfold refKey
  split
  · show p + (numKeyRun file p).length ≤ file.length
    have h1 := length_takeWhile_le isDigitB (file.drop p)
    rw [List.length_drop] at h1
    unfold numKeyRun
    omega
  · have h1 := length_takeWhile_le (fun c => !isSpaceB c) (file.drop p)
    rw [List.length_drop] at h1
    split
    · show p + (textKeyRun file p).length ≤ file.length
      unfold textKeyRun
      omega
    · show p + (textKeyRun file p).length ≤ file.length
      unfold textKeyRun
      omega

/-- Unfolding of the key-grouped loop at an exhausted state: the final
descriptor is closed at the total number of bytes read. -/
theorem BuildKeyLoopF_done {file : List Byte} {numeric : Bool} {isIncluded : Key → Bool}
    {fuel : Nat} {s : IState} {reg : List Key} {ck : Nat} {sd : SequenceDescriptor}
    {acc : ScanAcc} (hd : s.done = true) :
    BuildKeyLoopF file numeric isIncluded (fuel + 1) s reg ck sd acc =
      some (s, emitSeq numeric isIncluded reg acc ck
        { sd with byteSize := s.fileOffsetEnd - sd.fileOffsetBytes }) := by
  simp only [BuildKeyLoopF]
  rw [if_pos hd]

/-- The key-grouped loop of `Indexer::Build` refines `refKeyLoop`. -/
theorem BuildKeyLoopF_sim (file : List Byte) (numeric : Bool) (isIncluded : Key → Bool) :
    ∀ (fuel : Nat) (s : IState) (reg : List Key) (ck : Nat) (sd : SequenceDescriptor)
      (acc : ScanAcc), Inv file s → s.done = false →
    file.length + 2 ≤ fuel + GetFileOffset s →
    ∃ t, BuildKeyLoopF file numeric isIncluded fuel s reg ck sd acc =
      some (t, refKeyLoop numeric isIncluded file (GetFileOffset s) ck sd reg acc) := by
  intro fuel
  induction fuel with
  | zero =>
    intro s reg ck sd acc h hd hfuel
    exfalso
    have hEndLe : s.fileOffsetEnd ≤ file.length := h.2.2.1
    have hPosLe : GetFileOffset s ≤ s.fileOffsetEnd := h.pos_le_end
    omega
  | succ fuel ih =>
    intro s reg ck sd acc h hd hfuel
    have hd' : ¬s.done = true := by simp [hd]
    have hEndLe : s.fileOffsetEnd ≤ file.length := h.2.2.1
    have hPosLe : GetFileOffset s ≤ s.fileOffsetEnd := h.pos_le_end
    simp only [BuildKeyLoopF]
    rw [if_neg hd']
    obtain ⟨s1, hskip, hInv1, hconc⟩ := SkipLineF_sim file (file.length + 2) s h hd (by omega)
    rw [hskip]
    dsimp only
    cases hrs : refSkip file (GetFileOffset s) with
    | none =>
      rw [hrs] at hconc
      have hdone1 : s1.done = true := hconc
      rw [if_pos hdone1]
      cases fuel with
      | zero => exfalso; omega
      | succ fuel =>
        rw [BuildKeyLoopF_done hdone1, refKeyLoop_noNL hrs, hInv1.end_of_done hdone1]
        exact ⟨s1, rfl⟩
    | some q =>
      rw [hrs] at hconc
      obtain ⟨hq1, hq2⟩ := hconc
      obtain ⟨hqa, hqL', haLt⟩ := refSkip_some_bounds hrs
      rw [hq1]
      by_cases hqL : q = file.length
      · have hdone1 : s1.done = true := hq2.mpr hqL
        rw [if_pos hdone1]
        cases fuel with
        | zero => exfalso; omega
        | succ fuel =>
          rw [BuildKeyLoopF_done hdone1, refKeyLoop_atEOF (hqL ▸ hrs),
            hInv1.end_of_done hdone1]
          exact ⟨s1, rfl⟩
      · have hdone1 : s1.done = false := by
          cases hx : s1.done
          · rfl
          · exact absurd (hq2.mp hx) hqL
        rw [if_neg (show ¬s1.done = true by rw [hdone1]; exact Bool.false_ne_true)]
        obtain ⟨r, htry, hrInv, hrfound, hrid, hrreg, hrpos, hrdone⟩ :=
          TryGetSequenceId_sim file numeric reg hInv1 hdone1
        rw [hq1] at hrfound hrid hrreg hrpos hrdone
        rw [htry]
        dsimp only
        by_cases hkL : (refKey file numeric q reg).2.2.1 = file.length
        · -- the key parse ran to end-of-file: nothing found, loop exits next
          have hrf : r.found = false := by
            rw [hrfound]
            exact refKey_eof_not_found (le_of_eq hkL.symm)
          have hrd : r.state.done = true := hrdone (le_of_eq hkL.symm)
          rw [if_neg (by rw [hrf]; simp)]
          cases fuel with
          | zero => exfalso; omega
          | succ fuel =>
            rw [BuildKeyLoopF_done hrd, refKeyLoop_keyEOF hrs hqL hkL,
              hrInv.end_of_done hrd, hrreg]
            exact ⟨r.state, rfl⟩
        · have hklt : (refKey file numeric q reg).2.2.1 < file.length := by
            have := @refKey_pos_le_len file numeric q reg hqL'
            omega
          obtain ⟨hrq, hrd⟩ := hrpos hklt
          by_cases hcond : (refKey file numeric q reg).1 = true ∧
              (refKey file numeric q reg).2.1 ≠ ck
          · rw [if_pos ⟨by rw [hrfound]; exact hcond.1, by rw [hrid]; exact hcond.2⟩]
            rw [hrreg, hrid]
            obtain ⟨t, ht⟩ := ih r.state
              (emitSeq numeric isIncluded (refKey file numeric q reg).2.2.2 acc ck
                { sd with
                  numberOfSamples := sd.numberOfSamples + 1,
                  byteSize := q - sd.fileOffsetBytes }).1
              (refKey file numeric q reg).2.1
              { fileOffsetBytes := q, byteSize := 0, numberOfSamples := 0,
                keySequence := 0, keySample := 0 }
              (emitSeq numeric isIncluded (refKey file numeric q reg).2.2.2 acc ck
                { sd with
                  numberOfSamples := sd.numberOfSamples + 1,
                  byteSize := q - sd.fileOffsetBytes }).2
              hrInv hrd
              (by
                rw [hrq]
                have hge := refKey_pos_ge file numeric q reg
                omega)
            rw [hrq] at ht
            rw [ht, refKeyLoop_stepNew hrs hqL hkL hcond]
            exact ⟨t, rfl⟩
          · rw [if_neg (by
              intro hx
              rw [hrfound, hrid] at hx
              exact hcond hx)]
            rw [hrreg]
            obtain ⟨t, ht⟩ := ih r.state (refKey file numeric q reg).2.2.2 ck
              { sd with numberOfSamples := sd.numberOfSamples + 1 } acc hrInv hrd
              (by
                rw [hrq]
                have hge := refKey_pos_ge file numeric q reg
                omega)
            rw [hrq] at ht
            rw [ht, refKeyLoop_stepSame hrs hqL hkL hcond]
            exact ⟨t, rfl⟩

/-! ### The master simulation: `Build` refines `refBuild` -/

/-- A successful key parse stops before end-of-file. -/
theorem refKey_found_lt {file : List Byte} {numeric : Bool} {p : Nat} {reg : List Key}
    (hf : (refKey file numeric p reg).1 = true) :
    (refKey file numeric p reg).2.2.1 < file.length := by
  by_cases hk : (refKey file numeric p reg).2.2.1 < file.length
  · exact hk
  · rw [refKey_eof_not_found (by omega)] at hf
    cases hf

/-- The post-BOM tail of `Build` refines the corresponding tail of
`refBuild`, from any invariant state whose cursor sits at `o` with a
non-empty window. -/
theorem BuildRest_sim (file : List Byte) (hasIds numeric : Bool) (pre : Byte)
    (isIncluded : Key → Bool) (reg0 : List Key) (s1 : IState) (o : Nat)
    (h1 : Inv file s1) (hd1 : s1.done = false) (ho : GetFileOffset s1 = o)
    (hpos0 : s1.posIdx = 0) (hlen1 : 0 < s1.buffer.length) :
    buildObs (BuildRest file hasIds numeric pre isIncluded reg0 s1) =
      (if hasIds = false ∨ file.getD o 0 = pre then
        .ok { registry := (refLines numeric isIncluded file o reg0 0
                { computed := [], added := [] }).1,
              computed := (refLines numeric isIncluded file o reg0 0
                { computed := [], added := [] }).2.computed,
              added := (refLines numeric isIncluded file o reg0 0
                { computed := [], added := [] }).2.added,
              reserved := some file.length }
      else if (refKey file numeric o reg0).1 = false then .error (.noSequenceId o)
      else
        .ok { registry := (refKeyLoop numeric isIncluded file
                (refKey file numeric o reg0).2.2.1 (refKey file numeric o reg0).2.1
                { fileOffsetBytes := o, byteSize := 0, numberOfSamples := 0,
                  keySequence := 0, keySample := 0 }
                (refKey file numeric o reg0).2.2.2 { computed := [], added := [] }).1,
              computed := (refKeyLoop numeric isIncluded file
                (refKey file numeric o reg0).2.2.1 (refKey file numeric o reg0).2.1
                { fileOffsetBytes := o, byteSize := 0, numberOfSamples := 0,
                  keySequence := 0, keySample := 0 }
                (refKey file numeric o reg0).2.2.2 { computed := [], added := [] }).2.computed,
              added := (refKeyLoop numeric isIncluded file
                (refKey file numeric o reg0).2.2.1 (refKey file numeric o reg0).2.1
                { fileOffsetBytes := o, byteSize := 0, numberOfSamples := 0,
                  keySequence := 0, keySample := 0 }
                (refKey file numeric o reg0).2.2.2 { computed := [], added := [] }).2.added,
              reserved := some file.length } :
        Except ScanError RefResult) := by
  have hEndLe : s1.fileOffsetEnd ≤ file.length := h1.2.2.1
  have hPosLe : GetFileOffset s1 ≤ s1.fileOffsetEnd := h1.pos_le_end
  have hbyte : s1.buffer.getD 0 0 = file.getD o 0 := by
    have hg := h1.getD_buffer hlen1
    rw [hg]
    congr 1
    rw [← ho]
    unfold GetFileOffset
    rw [hpos0]
  unfold BuildRest
  by_cases hdisp : hasIds = false ∨ s1.buffer.getD 0 0 = pre
  · rw [if_pos hdisp, if_pos (by rwa [hbyte] at hdisp)]
    obtain ⟨t, ht⟩ := BuildFromLinesF_sim file numeric isIncluded (2 * file.length + 4) s1
      reg0 0 (GetFileOffset s1) { computed := [], added := [] } h1 hd1 (le_refl _)
      (by intro i hi1 hi2; omega) (by omega)
    rw [ho] at ht
    rcases hRL : refLines numeric isIncluded file o reg0 0 { computed := [], added := [] }
      with ⟨regF, accF⟩
    rw [hRL] at ht
    rw [ho, ht]
    rfl
  · rw [if_neg hdisp, if_neg (by
      intro hx
      apply hdisp
      rcases hx with hx | hx
      · exact Or.inl hx
      · exact Or.inr (by rw [hbyte]; exact hx))]
    obtain ⟨r, htry, hrInv, hrfound, hrid, hrreg, hrpos, hrdone⟩ :=
      TryGetSequenceId_sim file numeric reg0 h1 hd1
    rw [ho] at hrfound hrid hrreg hrpos hrdone
    rw [htry]
    dsimp only
    by_cases hkf : (refKey file numeric o reg0).1 = false
    · have hrf : r.found = false := by rw [hrfound]; exact hkf
      rw [if_pos hrf, if_pos hkf, ho]
      rfl
    · have hkt : (refKey file numeric o reg0).1 = true := by
        cases hx : (refKey file numeric o reg0).1
        · exact absurd hx hkf
        · rfl
      have hrft : ¬r.found = false := by
        rw [hrfound, hkt]
        intro hx
        cases hx
      rw [if_neg hrft, if_neg hkf]
      have hklt := refKey_found_lt hkt
      obtain ⟨hrq, hrd⟩ := hrpos hklt
      rw [hrreg, hrid, ho]
      obtain ⟨t, ht⟩ := BuildKeyLoopF_sim file numeric isIncluded (2 * file.length + 4)
        r.state (refKey file numeric o reg0).2.2.2 (refKey file numeric o reg0).2.1
        { fileOffsetBytes := o, byteSize := 0, numberOfSamples := 0,
          keySequence := 0, keySample := 0 }
        { computed := [], added := [] } hrInv hrd (by omega)
      rw [hrq] at ht
      rcases hRK : refKeyLoop numeric isIncluded file (refKey file numeric o reg0).2.2.1
          (refKey file numeric o reg0).2.1
          { fileOffsetBytes := o, byteSize := 0, numberOfSamples := 0,
            keySequence := 0, keySample := 0 }
          (refKey file numeric o reg0).2.2.2 { computed := [], added := [] }
        with ⟨regF, accF⟩
      rw [hRK] at ht
      rw [ht]
      rfl

/-- `List.take` preserves `getD` within its prefix. -/
theorem getD_take {l : List Byte} {n i : Nat} (h : i < n) :
    (l.take n).getD i 0 = l.getD i 0 := by
  simp only [List.getD_eq_getElem?_getD]
  rw [List.getElem?_take, if_pos h]

/-- Master simulation: with a positive buffer capacity, `Build` computes
exactly the reference scan started at `refStartOffset file bufferSize`;
the capacity influences the observable result only through the BOM-skip
decision. -/
theorem Build_sim (file : List Byte) (hasIds numeric : Bool) (pre : Byte)
    (bufferSize : Nat) (isIncluded : Key → Bool) (reg0 : List Key)
    (hB : 1 ≤ bufferSize) :
    buildObs (Build file hasIds numeric pre bufferSize isIncluded reg0 false) =
      refBuild file hasIds numeric pre isIncluded reg0
        (refStartOffset file bufferSize) := by
  unfold Build
  rw [if_neg Bool.false_ne_true]
  by_cases hL0 : file.length = 0
  · have hdone : RefillBuffer file (initialState bufferSize) =
        { initialState bufferSize with done := true } := by
      apply refill_done
      · rfl
      · show file.length ≤ 0
        omega
    dsimp only
    rw [hdone, if_pos (show ({ initialState bufferSize with done := true } : IState).done
      = true from rfl)]
    unfold refBuild
    rw [if_pos hL0]
    rfl
  · have hfc : freadCount file (initialState bufferSize) = min bufferSize file.length := rfl
    have hmin1 : 1 ≤ min bufferSize file.length := by omega
    have hs0 : RefillBuffer file (initialState bufferSize) =
        { bufferSize := bufferSize, fileOffsetStart := 0,
          fileOffsetEnd := min bufferSize file.length,
          buffer := file.take (min bufferSize file.length), posIdx := 0, done := false } := by
      rw [RefillBuffer_eq]
      rw [if_neg (show ¬(initialState bufferSize).done = true from Bool.false_ne_true)]
      rw [if_neg (show ¬freadCount file (initialState bufferSize) = 0 from by
        rw [hfc]; omega)]
      rw [hfc]
      show ({ bufferSize := bufferSize, fileOffsetStart := 0,
              fileOffsetEnd := 0 + min bufferSize file.length,
              buffer := (file.drop 0).take (min bufferSize file.length),
              posIdx := 0, done := false } : IState) = _
      rw [Nat.zero_add, List.drop_zero]
    have hd0 : (RefillBuffer file (initialState bufferSize)).done = false := by rw [hs0]
    have hlen : (RefillBuffer file (initialState bufferSize)).buffer.length =
        min bufferSize file.length := by
      rw [hs0]
      dsimp only
      rw [List.length_take]
      omega
    have hgd : ∀ i, i < min bufferSize file.length →
        (RefillBuffer file (initialState bufferSize)).buffer.getD i 0 = file.getD i 0 := by
      intro i hi
      rw [hs0]
      exact getD_take hi
    dsimp only
    rw [if_neg (show ¬(RefillBuffer file (initialState bufferSize)).done = true from by
      rw [hd0]; exact Bool.false_ne_true)]
    by_cases hbom : 3 < min bufferSize file.length ∧ hasBOM file
    · obtain ⟨hb3, hbb⟩ := hbom
      have hbb' : file.getD 0 0 = 239 ∧ file.getD 1 0 = 187 ∧ file.getD 2 0 = 191 := hbb
      obtain ⟨hbb0, hbb1, hbb2⟩ := hbb'
      have hc : 3 < (RefillBuffer file (initialState bufferSize)).buffer.length ∧
          (RefillBuffer file (initialState bufferSize)).buffer.getD 0 0 = 239 ∧
          (RefillBuffer file (initialState bufferSize)).buffer.getD 1 0 = 187 ∧
          (RefillBuffer file (initialState bufferSize)).buffer.getD 2 0 = 191 := by
        refine ⟨by rw [hlen]; exact hb3, ?_, ?_, ?_⟩
        · rw [hgd 0 (by omega)]; exact hbb0
        · rw [hgd 1 (by omega)]; exact hbb1
        · rw [hgd 2 (by omega)]; exact hbb2
      rw [if_pos hc]
      have h1 : Inv file
          { RefillBuffer file (initialState bufferSize) with
            fileOffsetStart := (RefillBuffer file (initialState bufferSize)).fileOffsetStart + 3,
            buffer := (RefillBuffer file (initialState bufferSize)).buffer.drop 3 } := by
        rw [hs0]
        refine ⟨hB, ?_, ?_, ?_, ?_, Or.inl rfl⟩
        · show 3 ≤ min bufferSize file.length
          omega
        · show min bufferSize file.length ≤ file.length
          omega
        · show (file.take (min bufferSize file.length)).drop 3 =
            (file.drop 3).take (min bufferSize file.length - 3)
          rw [List.drop_take]
        · exact Nat.zero_le _
      have hd1 : ({ RefillBuffer file (initialState bufferSize) with
          fileOffsetStart := (RefillBuffer file (initialState bufferSize)).fileOffsetStart + 3,
          buffer := (RefillBuffer file (initialState bufferSize)).buffer.drop 3 } : IState).done
          = false := by
        rw [hs0]
      have ho : GetFileOffset
          { RefillBuffer file (initialState bufferSize) with
            fileOffsetStart := (RefillBuffer file (initialState bufferSize)).fileOffsetStart + 3,
            buffer := (RefillBuffer file (initialState bufferSize)).buffer.drop 3 } = 3 := by
        rw [hs0]
        rfl
      have hp : ({ RefillBuffer file (initialState bufferSize) with
          fileOffsetStart := (RefillBuffer file (initialState bufferSize)).fileOffsetStart + 3,
          buffer := (RefillBuffer file (initialState bufferSize)).buffer.drop 3 } : IState).posIdx
          = 0 := by
        rw [hs0]
      have hl1 : 0 < ({ RefillBuffer file (initialState bufferSize) with
          fileOffsetStart := (RefillBuffer file (initialState bufferSize)).fileOffsetStart + 3,
          buffer := (RefillBuffer file (initialState bufferSize)).buffer.drop 3 }
            : IState).buffer.length := by
        rw [hs0]
        dsimp only
        rw [List.length_drop, List.length_take]
        omega
      rw [BuildRest_sim file hasIds numeric pre isIncluded reg0 _ 3 h1 hd1 ho hp hl1]
      have hbomc : 3 < min bufferSize file.length ∧ hasBOM file := ⟨hb3, hbb⟩
      simp only [refStartOffset]
      rw [if_pos hbomc]
      simp only [refBuild]
      rw [if_neg hL0]
    · have hcneg : ¬(3 < (RefillBuffer file (initialState bufferSize)).buffer.length ∧
          (RefillBuffer file (initialState bufferSize)).buffer.getD 0 0 = 239 ∧
          (RefillBuffer file (initialState bufferSize)).buffer.getD 1 0 = 187 ∧
          (RefillBuffer file (initialState bufferSize)).buffer.getD 2 0 = 191) := by
        intro hC
        obtain ⟨h3, hx0, hx1, hx2⟩ := hC
        apply hbom
        rw [hlen] at h3
        refine ⟨h3, ?_, ?_, ?_⟩
        · rw [← hgd 0 (by omega)]
          exact hx0
        · rw [← hgd 1 (by omega)]
          exact hx1
        · rw [← hgd 2 (by omega)]
          exact hx2
      rw [if_neg hcneg]
      have hInvInit : Inv file (initialState bufferSize) :=
        ⟨hB, Nat.le_refl _, Nat.zero_le _, rfl, Nat.le_refl _, Or.inl rfl⟩
      have hInv0 : Inv file (RefillBuffer file (initialState bufferSize)) := hInvInit.refill
      have ho : GetFileOffset (RefillBuffer file (initialState bufferSize)) = 0 := by
        rw [hs0]
        rfl
      have hp : (RefillBuffer file (initialState bufferSize)).posIdx = 0 := by rw [hs0]
      have hl1 : 0 < (RefillBuffer file (initialState bufferSize)).buffer.length := by
        rw [hlen]
        omega
      rw [BuildRest_sim file hasIds numeric pre isIncluded reg0 _ 0 hInv0 hd0 ho hp hl1]
      simp only [refStartOffset]
      rw [if_neg hbom]
      simp only [refBuild]
      rw [if_neg hL0]

/-! ### Tiling of the scanned byte range by the computed descriptors -/

/-- Line-mode tiling: starting at `o ≤ file.length`, the descriptors the
scan appends to the log tile `[o, file.length)` exactly. -/
theorem refLines_tiles (numeric : Bool) (isIncluded : Key → Bool) (file : List Byte) :
    ∀ n o reg lines acc, file.length - o ≤ n → o ≤ file.length →
      ∃ news, (refLines numeric isIncluded file o reg lines acc).2.computed
          = acc.computed ++ news ∧
        Tiles o file.length (news.map Prod.snd) := by
  intro n
  induction n with
  | zero =>
    intro o reg lines acc hn ho
    have hnl : findNL (file.drop o) = none := by
      apply findNL_eq_none_of_all
      intro c hc
      rw [List.drop_eq_nil_of_le (by omega)] at hc
      cases hc
    rw [refLines_none hnl, if_neg (by omega)]
    exact ⟨[], by simp, by show o = file.length; omega⟩
  | succ n ih =>
    intro o reg lines acc hn ho
    cases hf : findNL (file.drop o) with
    | none =>
      rw [refLines_none hf]
      by_cases holt : o < file.length
      · rw [if_pos holt]
        refine ⟨[(lines,
          { fileOffsetBytes := o, byteSize := file.length - o,
            numberOfSamples := 1, keySequence := 0, keySample := 0 })], rfl, ?_⟩
        exact ⟨rfl, by show 0 < file.length - o; omega,
          by show o + (file.length - o) = file.length; omega⟩
      · rw [if_neg holt]
        exact ⟨[], by simp, by show o = file.length; omega⟩
    | some j =>
      rw [refLines_some hf]
      have hj : j < (file.drop o).length := findNL_some_lt hf
      rw [List.length_drop] at hj
      obtain ⟨news, hc, ht⟩ := ih (o + j + 1)
        (emitSeq numeric isIncluded reg acc lines
          { fileOffsetBytes := o, byteSize := j + 1, numberOfSamples := 1,
            keySequence := 0, keySample := 0 }).1 (lines + 1)
        (emitSeq numeric isIncluded reg acc lines
          { fileOffsetBytes := o, byteSize := j + 1, numberOfSamples := 1,
            keySequence := 0, keySample := 0 }).2 (by omega) (by omega)
      refine ⟨(lines,
        { fileOffsetBytes := o, byteSize := j + 1, numberOfSamples := 1,
          keySequence := 0, keySample := 0 }) :: news, ?_, ?_⟩
      · rw [hc]
        show (acc.computed ++ [(lines,
            { fileOffsetBytes := o, byteSize := j + 1,
              numberOfSamples := 1, keySequence := 0, keySample := 0 })]) ++ news
          = acc.computed ++ ((lines,
            { fileOffsetBytes := o, byteSize := j + 1,
              numberOfSamples := 1, keySequence := 0, keySample := 0 }) :: news)
        rw [List.append_assoc]
        rfl
      · exact ⟨rfl, by show 0 < j + 1; omega, ht⟩

/-- Key-grouped tiling: from a loop state whose pending descriptor starts
at or before the cursor, which is strictly inside the file, the appended
descriptors tile `[sd.fileOffsetBytes, file.length)` exactly. -/
theorem refKeyLoop_tiles (numeric : Bool) (isIncluded : Key → Bool) (file : List Byte) :
    ∀ n p ck sd reg acc, file.length - p ≤ n → sd.fileOffsetBytes ≤ p → p < file.length →
      ∃ news, (refKeyLoop numeric isIncluded file p ck sd reg acc).2.computed
          = acc.computed ++ news ∧
        Tiles sd.fileOffsetBytes file.length (news.map Prod.snd) := by
  intro n
  induction n with
  | zero =>
    intro p ck sd reg acc hn hsd hp
    omega
  | succ n ih =>
    intro p ck sd reg acc hn hsd hp
    cases hsk : refSkip file p with
    | none =>
      rw [refKeyLoop_noNL hsk]
      refine ⟨[(ck,
        { sd with
          numberOfSamples := sd.numberOfSamples + 1,
          byteSize := file.length - sd.fileOffsetBytes })], rfl, ?_⟩
      exact ⟨rfl, by show 0 < file.length - sd.fileOffsetBytes; omega,
        by show sd.fileOffsetBytes + (file.length - sd.fileOffsetBytes) = file.length; omega⟩
    | some q =>
      obtain ⟨hq1, hq2, -⟩ := refSkip_some_bounds hsk
      by_cases hqL : q = file.length
      · rw [hqL] at hsk
        rw [refKeyLoop_atEOF hsk]
        refine ⟨[(ck,
          { sd with
            numberOfSamples := sd.numberOfSamples + 1,
            byteSize := file.length - sd.fileOffsetBytes })], rfl, ?_⟩
        exact ⟨rfl, by show 0 < file.length - sd.fileOffsetBytes; omega,
          by show sd.fileOffsetBytes + (file.length - sd.fileOffsetBytes) = file.length; omega⟩
      · have hkle := @refKey_pos_le_len file numeric q reg (by omega)
        have hkge := refKey_pos_ge file numeric q reg
        by_cases hkEOF : (refKey file numeric q reg).2.2.1 = file.length
        · rw [refKeyLoop_keyEOF hsk hqL hkEOF]
          refine ⟨[(ck,
            { sd with
              numberOfSamples := sd.numberOfSamples + 1,
              byteSize := file.length - sd.fileOffsetBytes })], rfl, ?_⟩
          exact ⟨rfl, by show 0 < file.length - sd.fileOffsetBytes; omega,
            by show sd.fileOffsetBytes + (file.length - sd.fileOffsetBytes) = file.length; omega⟩
        · by_cases hcond : (refKey file numeric q reg).1 = true ∧
              (refKey file numeric q reg).2.1 ≠ ck
          · rw [refKeyLoop_stepNew hsk hqL hkEOF hcond]
            obtain ⟨news, hc, ht⟩ := ih (refKey file numeric q reg).2.2.1
              (refKey file numeric q reg).2.1
              { fileOffsetBytes := q, byteSize := 0, numberOfSamples := 0,
                keySequence := 0, keySample := 0 }
              (emitSeq numeric isIncluded (refKey file numeric q reg).2.2.2 acc ck
                { sd with
                  numberOfSamples := sd.numberOfSamples + 1,
                  byteSize := q - sd.fileOffsetBytes }).1
              (emitSeq numeric isIncluded (refKey file numeric q reg).2.2.2 acc ck
                { sd with
                  numberOfSamples := sd.numberOfSamples + 1,
                  byteSize := q - sd.fileOffsetBytes }).2
              (by omega) (by show q ≤ (refKey file numeric q reg).2.2.1; omega) (by omega)
            refine ⟨(ck,
              { sd with
                numberOfSamples := sd.numberOfSamples + 1,
                byteSize := q - sd.fileOffsetBytes }) :: news, ?_, ?_⟩
            · rw [hc]
              show (acc.computed ++ [(ck,
                  { sd with
                    numberOfSamples := sd.numberOfSamples + 1,
                    byteSize := q - sd.fileOffsetBytes })]) ++ news
                = acc.computed ++ ((ck,
                  { sd with
                    numberOfSamples := sd.numberOfSamples + 1,
                    byteSize := q - sd.fileOffsetBytes }) :: news)
              rw [List.append_assoc]
              rfl
            · refine ⟨rfl, by show 0 < q - sd.fileOffsetBytes; omega, ?_⟩
              have hq3 : sd.fileOffsetBytes + (q - sd.fileOffsetBytes) = q := by omega
              show Tiles (sd.fileOffsetBytes + (q - sd.fileOffsetBytes)) file.length
                (news.map Prod.snd)
              rw [hq3]
              exact ht
          · rw [refKeyLoop_stepSame hsk hqL hkEOF hcond]
            obtain ⟨news, hc, ht⟩ := ih (refKey file numeric q reg).2.2.1 ck
              { sd with numberOfSamples := sd.numberOfSamples + 1 }
              (refKey file numeric q reg).2.2.2 acc (by omega)
              (by show sd.fileOffsetBytes ≤ (refKey file numeric q reg).2.2.1; omega)
              (by omega)
            exact ⟨news, hc, ht⟩

/-- Every successful reference scan tiles `[o, file.length)` with the
descriptors it computes. -/
theorem refBuild_tiles {file : List Byte} {hasIds numeric : Bool} {pre : Byte}
    {isIncluded : Key → Bool} {reg0 : List Key} {o : Nat} {r : RefResult}
    (ho : o ≤ file.length)
    (h : refBuild file hasIds numeric pre isIncluded reg0 o = .ok r) :
    Tiles o file.length (r.computed.map Prod.snd) := by
  unfold refBuild at h
  by_cases hL : file.length = 0
  · rw [if_pos hL] at h
    cases h
  · rw [if_neg hL] at h
    by_cases hdisp : hasIds = false ∨ file.getD o 0 = pre
    · rw [if_pos hdisp] at h
      dsimp only at h
      obtain ⟨news, hc, ht⟩ := refLines_tiles numeric isIncluded file file.length o reg0 0
        { computed := [], added := [] } (by omega) ho
      cases h
      show Tiles o file.length ((refLines numeric isIncluded file o reg0 0
        { computed := [], added := [] }).2.computed.map Prod.snd)
      rw [hc]
      exact ht
    · rw [if_neg hdisp] at h
      dsimp only at h
      by_cases hkf : (refKey file numeric o reg0).1 = false
      · rw [if_pos hkf] at h
        cases h
      · rw [if_neg hkf] at h
        have hkt : (refKey file numeric o reg0).1 = true := by
          cases hx : (refKey file numeric o reg0).1
          · exact absurd hx hkf
          · rfl
        have hklt := refKey_found_lt hkt
        have hkge := refKey_pos_ge file numeric o reg0
        obtain ⟨news, hc, ht⟩ := refKeyLoop_tiles numeric isIncluded file file.length
          (refKey file numeric o reg0).2.2.1 (refKey file numeric o reg0).2.1
          { fileOffsetBytes := o, byteSize := 0, numberOfSamples := 0,
            keySequence := 0, keySample := 0 }
          (refKey file numeric o reg0).2.2.2 { computed := [], added := [] }
          (by omega) (by show o ≤ (refKey file numeric o reg0).2.2.1; omega) hklt
        cases h
        show Tiles o file.length ((refKeyLoop numeric isIncluded file
          (refKey file numeric o reg0).2.2.1 (refKey file numeric o reg0).2.1
          { fileOffsetBytes := o, byteSize := 0, numberOfSamples := 0,
            keySequence := 0, keySample := 0 }
          (refKey file numeric o reg0).2.2.2
          { computed := [], added := [] }).2.computed.map Prod.snd)
        rw [hc]
        exact ht

/-- Tiling carried over to the buffered scanner: a successful `Build`
with positive capacity tiles `[refStartOffset, file.length)`. -/
theorem Build_tiles {file : List Byte} {hasIds numeric : Bool} {pre : Byte}
    {bufferSize : Nat} {isIncluded : Key → Bool} {reg0 : List Key} {b : BuildResult}
    (hB : 1 ≤ bufferSize)
    (h : Build file hasIds numeric pre bufferSize isIncluded reg0 false = .ok b) :
    Tiles (refStartOffset file bufferSize) file.length (b.computed.map Prod.snd) := by
  have hsim := Build_sim file hasIds numeric pre bufferSize isIncluded reg0 hB
  rw [h] at hsim
  have ho : refStartOffset file bufferSize ≤ file.length := by
    unfold refStartOffset
    split
    · next hcond =>
      obtain ⟨h3, -⟩ := hcond
      omega
    · exact Nat.zero_le _
  have hrb : refBuild file hasIds numeric pre isIncluded reg0 (refStartOffset file bufferSize)
      = .ok { registry := b.registry, computed := b.computed, added := b.added,
              reserved := b.reserved } := by
    rw [← hsim]
    rfl
  have hT := refBuild_tiles ho hrb
  exact hT

/-! ### The claims -/

/-- C1 (corrected): the descriptors computed in discovery order tile the
scanned byte range `[startOffset, fileSize)` exactly — strictly
increasing, non-overlapping, gap-free — but the start offset is 3 only
when the BOM is present AND the first refill holds more than three bytes
(`3 < min bufferSize fileSize`), not whenever the file begins with a
BOM. -/
theorem C1_descriptor_tiling (file : List Byte) (hasIds numeric : Bool) (pre : Byte)
    (bufferSize : Nat) (isIncluded : Key → Bool) (reg0 : List Key) (b : BuildResult)
    (hB : 1 ≤ bufferSize)
    (h : Build file hasIds numeric pre bufferSize isIncluded reg0 false = .ok b) :
    Tiles (refStartOffset file bufferSize) file.length (b.computed.map Prod.snd) :=
  Build_tiles hB h

/-- C1 witness: the tiling on the concrete run over `"a\nb\n"` with
capacity 8 (start offset 0, two descriptors of two bytes each). -/
theorem C1_descriptor_tiling_witness :
    Tiles 0 4 [{ fileOffsetBytes := 0, byteSize := 2, numberOfSamples := 1,
                 keySequence := 0, keySample := 0 },
               { fileOffsetBytes := 2, byteSize := 2, numberOfSamples := 1,
                 keySequence := 0, keySample := 0 }] :=
  C1_descriptor_tiling [97, 10, 98, 10] false true 124 8 (fun _ => true) []
    { state := { bufferSize := 8, fileOffsetStart := 0, fileOffsetEnd := 4,
                 buffer := [97, 10, 98, 10], posIdx := 4, done := true },
      registry := [[48], [49]],
      computed := [(0, { fileOffsetBytes := 0, byteSize := 2, numberOfSamples := 1,
                         keySequence := 0, keySample := 0 }),
                   (1, { fileOffsetBytes := 2, byteSize := 2, numberOfSamples := 1,
                         keySequence := 0, keySample := 0 })],
      added := [{ fileOffsetBytes := 0, byteSize := 2, numberOfSamples := 1,
                  keySequence := 0, keySample := 0 },
                { fileOffsetBytes := 2, byteSize := 2, numberOfSamples := 1,
                  keySequence := 1, keySample := 0 }],
      reserved := some 4 } (by decide) rfl

/-- C1 counterexample to the claimed start offset: on the BOM-only file
the single computed descriptor covers `[0, 3)`, which does not tile the
claimed range `[3, 3)`. -/
theorem C1_counterexample :
    (Build [239, 187, 191] false true 124 1024 (fun _ => true) [] false).toOption.map
        (fun b => b.computed.map Prod.snd) =
      some [{ fileOffsetBytes := 0, byteSize := 3, numberOfSamples := 1,
              keySequence := 0, keySample := 0 }] ∧
    ¬Tiles 3 3 [{ fileOffsetBytes := 0, byteSize := 3, numberOfSamples := 1,
                  keySequence := 0, keySample := 0 }] := by decide

/-- C2: for every emission, `AddSequenceIfIncluded` decides inclusion via
the corpus filter and interns through the registry with exactly one key —
the one derived from the sequence id it was handed — in both the numeric
and the textual paths. -/
theorem C2_emit_key_consistency (numeric : Bool) (isIncluded : Key → Bool)
    (reg : List Key) (sequenceId : Nat) (sd : SequenceDescriptor) :
    AddSequenceIfIncluded numeric isIncluded reg sequenceId sd =
      specAddSequence numeric isIncluded reg sequenceId sd := by
  cases numeric <;> rfl

/-- C3 (corrected): two scans with buffer capacities of at least FOUR
bytes produce identical observable results; capacities 1–3 can differ
from larger ones on BOM-prefixed files, because the BOM skip requires
more than three bytes in the first refill. -/
theorem C3_buffer_size_independence (file : List Byte) (hasIds numeric : Bool)
    (pre : Byte) (isIncluded : Key → Bool) (reg0 : List Key) (b1 b2 : Nat)
    (h1 : 4 ≤ b1) (h2 : 4 ≤ b2) :
    buildObs (Build file hasIds numeric pre b1 isIncluded reg0 false) =
      buildObs (Build file hasIds numeric pre b2 isIncluded reg0 false) := by
  rw [Build_sim file hasIds numeric pre b1 isIncluded reg0 (by omega),
      Build_sim file hasIds numeric pre b2 isIncluded reg0 (by omega)]
  have he : refStartOffset file b1 = refStartOffset file b2 := by
    unfold refStartOffset
    by_cases hbom : hasBOM file
    · by_cases h3 : 3 < file.length
      · rw [if_pos ⟨by omega, hbom⟩, if_pos ⟨by omega, hbom⟩]
      · rw [if_neg (by intro hx; obtain ⟨c, -⟩ := hx; omega),
            if_neg (by intro hx; obtain ⟨c, -⟩ := hx; omega)]
    · rw [if_neg (by intro hx; exact hbom hx.2), if_neg (by intro hx; exact hbom hx.2)]
  rw [he]

/-- C3 witness: capacities 5 and 7 agree on a BOM-prefixed file. -/
theorem C3_buffer_size_independence_witness :
    buildObs (Build [239, 187, 191, 97, 10] false true 124 5 (fun _ => true) [] false) =
      buildObs (Build [239, 187, 191, 97, 10] false true 124 7 (fun _ => true) [] false) :=
  C3_buffer_size_independence [239, 187, 191, 97, 10] false true 124 (fun _ => true) [] 5 7
    (by decide) (by decide)

/-- C3 counterexample to the original claim (any capacities ≥ 1):
capacities 3 and 4 on a BOM-prefixed file emit different descriptors —
capacity 3 scans the BOM as payload, capacity 4 skips it. -/
theorem C3_counterexample :
    ¬((Build [239, 187, 191, 97, 10] false true 124 3 (fun _ => true) [] false).toOption.map
          (fun b => b.computed) =
      (Build [239, 187, 191, 97, 10] false true 124 4 (fun _ => true) [] false).toOption.map
          (fun b => b.computed)) := by decide

/-- C4 (corrected): with the BOM present, the scan's start offset is 3
exactly when the first refill holds more than three bytes
(`3 < min bufferSize fileSize`); in particular a file of exactly the
three BOM bytes does NOT fail as "empty input" — its BOM is not skipped
and is scanned as payload. -/
theorem C4_bom_handling (file : List Byte) (hasIds numeric : Bool) (pre : Byte)
    (bufferSize : Nat) (isIncluded : Key → Bool) (reg0 : List Key)
    (hB : 1 ≤ bufferSize) (hbom : hasBOM file) :
    buildObs (Build file hasIds numeric pre bufferSize isIncluded reg0 false) =
      refBuild file hasIds numeric pre isIncluded reg0
        (if 3 < min bufferSize file.length then 3 else 0) := by
  rw [Build_sim file hasIds numeric pre bufferSize isIncluded reg0 hB]
  have he : refStartOffset file bufferSize
      = if 3 < min bufferSize file.length then 3 else 0 := by
    unfold refStartOffset
    by_cases h3 : 3 < min bufferSize file.length
    · rw [if_pos ⟨h3, hbom⟩, if_pos h3]
    · rw [if_neg (by intro hx; exact h3 hx.1), if_neg h3]
  rw [he]

/-- C4 witness: a BOM-prefixed file with capacity 2 (the BOM is not
skipped because the first refill holds only two bytes). -/
theorem C4_bom_handling_witness :
    buildObs (Build [239, 187, 191, 97, 10] false true 124 2 (fun _ => true) [] false) =
      refBuild [239, 187, 191, 97, 10] false true 124 (fun _ => true) []
        (if 3 < min 2 (List.length [239, 187, 191, 97, 10]) then 3 else 0) :=
  C4_bom_handling [239, 187, 191, 97, 10] false true 124 2 (fun _ => true) []
    (by decide) (by decide)

/-- C4 counterexample to the claim: the BOM-only file scans successfully
(no "empty input" failure) and its descriptor starts at offset 0 — the
BOM bytes are neither skipped nor excluded from offset computations. -/
theorem C4_counterexample :
    hasBOM [239, 187, 191] ∧
    (Build [239, 187, 191] false true 124 1024 (fun _ => true) [] false).toOption.map
        (fun b => b.computed.map Prod.snd) =
      some [{ fileOffsetBytes := 0, byteSize := 3, numberOfSamples := 1,
              keySequence := 0, keySample := 0 }] := by decide

/-- C5: key-grouped numeric scan of `"1 x\n1 y\n2 z\n"` computes exactly
two descriptors — key 1 with two samples and key 2 with one sample — and
their byte sizes sum to the input length. -/
theorem C5_numeric_trace :
    (Build [49, 32, 120, 10, 49, 32, 121, 10, 50, 32, 122, 10] true true 124 1024
        (fun _ => true) [] false).toOption.map (fun b => b.computed) =
      some [(1, { fileOffsetBytes := 0, byteSize := 8, numberOfSamples := 2,
                  keySequence := 0, keySample := 0 }),
            (2, { fileOffsetBytes := 8, byteSize := 4, numberOfSamples := 1,
                  keySequence := 0, keySample := 0 })] ∧
    8 + 4 = List.length [49, 32, 120, 10, 49, 32, 121, 10, 50, 32, 122, 10] := by decide

/-- C6: line-delimited scan of `"a\nbb\nccc"` (no trailing delimiter)
computes exactly three descriptors with byte sizes 2, 3, 3 and one sample
each; the third covers the unterminated trailing line `[5, 8)`. -/
theorem C6_line_trace :
    (Build [97, 10, 98, 98, 10, 99, 99, 99] false true 124 1024
        (fun _ => true) [] false).toOption.map (fun b => b.computed) =
      some [(0, { fileOffsetBytes := 0, byteSize := 2, numberOfSamples := 1,
                  keySequence := 0, keySample := 0 }),
            (1, { fileOffsetBytes := 2, byteSize := 3, numberOfSamples := 1,
                  keySequence := 0, keySample := 0 }),
            (2, { fileOffsetBytes := 5, byteSize := 3, numberOfSamples := 1,
                  keySequence := 0, keySample := 0 })] := by decide

/-- C7: when the index sink already reports non-empty, `Build` is a
no-op: it returns with the constructor's cursor state untouched, the
registry exactly as given, no computed and no added descriptors, and no
`Reserve` call recorded. -/
theorem C7_nonempty_sink_noop (file : List Byte) (hasIds numeric : Bool) (pre : Byte)
    (bufferSize : Nat) (isIncluded : Key → Bool) (reg0 : List Key) :
    Build file hasIds numeric pre bufferSize isIncluded reg0 true =
      .ok { state := initialState bufferSize, registry := reg0, computed := [],
            added := [], reserved := none } := by
  unfold Build
  rw [if_pos rfl]

/-- C8 (corrected): numeric key parsing folds the run of digits at the
cursor via `id = id*10 + digit` (in `size_t` arithmetic), stops at the
first non-digit without consuming it, and returns `found = true` iff at
least one digit was read AND the digit run ends strictly before
end-of-file; a digit run that reaches end-of-file reports
`found = false`. -/
theorem C8_numeric_found_iff (file : List Byte) (s : IState) (reg : List Key)
    (h : Inv file s) (hd : s.done = false) :
    ∃ r, TryGetSequenceId file true (2 * file.length + 4) s reg = some r ∧
      r.id = (numKeyRun file (GetFileOffset s)).foldl digitStep 0 ∧
      r.registry = reg ∧
      (r.found = true ↔ numKeyRun file (GetFileOffset s) ≠ [] ∧
        GetFileOffset s + (numKeyRun file (GetFileOffset s)).length < file.length) ∧
      (GetFileOffset s + (numKeyRun file (GetFileOffset s)).length < file.length →
        GetFileOffset r.state
            = GetFileOffset s + (numKeyRun file (GetFileOffset s)).length ∧
          r.state.done = false) ∧
      (file.length ≤ GetFileOffset s + (numKeyRun file (GetFileOffset s)).length →
        r.state.done = true) := by
  obtain ⟨r, hr, -, hfound, hid, hreg, hpos, hdone⟩ := TryGetSequenceId_sim file true reg h hd
  have hkpos : (refKey file true (GetFileOffset s) reg).2.2.1
      = GetFileOffset s + (numKeyRun file (GetFileOffset s)).length := by
    unfold refKey
    rw [if_pos rfl]
  refine ⟨r, hr, ?_, ?_, ?_, ?_, ?_⟩
  · rw [hid]
    unfold refKey
    rw [if_pos rfl]
  · rw [hreg]
    unfold refKey
    rw [if_pos rfl]
  · rw [hfound]
    unfold refKey
    rw [if_pos rfl]
    dsimp only
    cases hrun : numKeyRun file (GetFileOffset s) with
    | nil => simp
    | cons c cs => simp
  · intro hlt
    have hres := hpos (by rw [hkpos]; exact hlt)
    rw [hkpos] at hres
    exact hres
  · intro hge
    exact hdone (by rw [hkpos]; omega)

/-- C8 witness: on `"1 x"` the parser reads the single digit, reports
`found = true`, and its final cursor sits on the space — exactly one
byte past the start, the terminator unconsumed, stream not exhausted. -/
theorem C8_numeric_found_iff_witness :
    ∃ r, TryGetSequenceId [49, 32, 120] true 10
        { bufferSize := 4, fileOffsetStart := 0, fileOffsetEnd := 3,
          buffer := [49, 32, 120], posIdx := 0, done := false } [] = some r ∧
      r.id = 1 ∧ r.registry = [] ∧
      (r.found = true ↔ [49] ≠ ([] : List Byte) ∧ 0 + 1 < 3) ∧
      (0 + 1 < 3 → GetFileOffset r.state = 0 + 1 ∧ r.state.done = false) ∧
      (3 ≤ 0 + 1 → r.state.done = true) :=
  C8_numeric_found_iff [49, 32, 120]
    { bufferSize := 4, fileOffsetStart := 0, fileOffsetEnd := 3,
      buffer := [49, 32, 120], posIdx := 0, done := false } [] (by decide) rfl

/-- C8 counterexample to the claimed iff: on `"12"` the parser reads two
digits (`id = 12`) yet reports `found = false`, because the digits run
into end-of-file. -/
theorem C8_counterexample :
    (TryGetSequenceId [49, 50] true 8
        { bufferSize := 1024, fileOffsetStart := 0, fileOffsetEnd := 2,
          buffer := [49, 50], posIdx := 0, done := false } []).map
      (fun r => (r.found, r.id)) = some (false, 12) := by decide

/-- C9: an I/O failure reported by the underlying read makes the refill
abort the scan fatally (`readFailure`); it is never treated as
end-of-file. -/
theorem C9_read_failure_fatal (file : List Byte) (s : IState) (hd : s.done = false) :
    RefillBufferIO file s .ioError = .error .readFailure := by
  unfold RefillBufferIO
  rw [if_neg (by rw [hd]; exact Bool.false_ne_true)]

/-- C9 witness: a fresh scanner over a one-byte file. -/
theorem C9_read_failure_fatal_witness :
    RefillBufferIO [65] (initialState 4) .ioError = .error .readFailure :=
  C9_read_failure_fatal [65] (initialState 4) rfl

/-- C10: textual key parsing that reaches end-of-file with a non-empty
accumulated key and no whitespace terminator returns `found = false` and
leaves the registry exactly as it was — the partial key is never passed
to `TryGet` or `AddValue`. -/
theorem C10_textual_eof_registry_unchanged (file : List Byte) (s : IState)
    (reg : List Key) (h : Inv file s) (hd : s.done = false)
    (hkey : textKeyRun file (GetFileOffset s) ≠ [])
    (heof : file.length ≤ GetFileOffset s + (textKeyRun file (GetFileOffset s)).length) :
    ∃ r, TryGetSequenceId file false (2 * file.length + 4) s reg = some r ∧
      r.found = false ∧ r.registry = reg := by
  obtain ⟨r, hr, -, hfound, -, hreg, -, -⟩ := TryGetSequenceId_sim file false reg h hd
  have hcond : (!(textKeyRun file (GetFileOffset s)).isEmpty &&
      decide (GetFileOffset s + (textKeyRun file (GetFileOffset s)).length < file.length))
      = false := by
    rw [decide_eq_false (by omega), Bool.and_false]
  refine ⟨r, hr, ?_, ?_⟩
  · rw [hfound]
    unfold refKey
    rw [if_neg Bool.false_ne_true, if_neg (by rw [hcond]; exact Bool.false_ne_true)]
  · rw [hreg]
    unfold refKey
    rw [if_neg Bool.false_ne_true, if_neg (by rw [hcond]; exact Bool.false_ne_true)]

/-- C10 witness: on `"ab"` (no whitespace before end-of-file) the
pre-seeded registry is returned unchanged and `found = false`. -/
theorem C10_textual_eof_registry_unchanged_witness :
    ∃ r, TryGetSequenceId [97, 98] false 8
        { bufferSize := 2, fileOffsetStart := 0, fileOffsetEnd := 2,
          buffer := [97, 98], posIdx := 0, done := false } [[120]] = some r ∧
      r.found = false ∧ r.registry = [[120]] :=
  C10_textual_eof_registry_unchanged [97, 98]
    { bufferSize := 2, fileOffsetStart := 0, fileOffsetEnd := 2,
      buffer := [97, 98], posIdx := 0, done := false } [[120]]
    (by decide) rfl (by decide) (by decide)

end Indexer
